import Mathlib

/-!
# stan-demo: the sequence-ordering buffer and the drainable ack tracker

A shallow embedding of `internal/message_buffer.go` and `internal/drainable.go`, and of
`SetOptions` and `batchCharacters` of `internal/producer.go`.

* Go maps are association lists with distinct keys (`AList`), wrapped in `Option`
  so that the nil map of a zero-valued struct is told apart from an allocated one.
* `uint64` values are natural numbers; the only arithmetic the buffer performs on
  them is `b.current++`, which is taken modulo `2 ^ 64`.
* Every method body runs under the struct's mutex, so a method is one atomic step.
  The goroutines started by `Consume` and the `select` loop of `Drain` are step
  functions driven by an explicit list of events (the schedule).
* `range` over a Go map visits the keys in an unspecified order; `init` therefore
  takes the visiting order as an argument.
* The connection `stan.Conn` and the handlers passed to it are not part of the
  repository; they are arguments, functions on the state they can reach.
* A Go `int` is taken as 64 bits wide; a run-time panic is the result `none`.
* A Go `float64` is a `Float`, the same binary64 format with the same comparison
  and multiplication.
-/

namespace StanDemo

/-! ## Go values -/

/-- The struct `Message` of `internal/ascii_demo.go`. -/
structure Message where
  MessageSeriesId : String
  MessageId : Int
  Body : String
  End : Bool
  deriving DecidableEq

/-- The zero value `Message{}`. -/
def Message.zero : Message := ⟨"", 0, "", false⟩

/-- The literal `Message{ MessageId: id, Body: body }` used throughout the tests. -/
def Message.lit (id : Int) (body : String) : Message := ⟨"", id, body, false⟩

/-- A Go `error`: `none` is `nil`, `some s` is an error whose text is `s`. -/
abbrev GoError := Option String

/-- A Go `map[K]V`: `none` is the nil map, `some a` an allocated map. -/
abbrev GoMap (K V : Type) := Option (AList (fun _ : K => V))

/-- The builtin `len(m)`; the nil map has length zero. -/
def mapLen {K V : Type} (m : GoMap K V) : Nat :=
  match m with
  | none => 0
  | some a => a.entries.length

/-- The lookup `v, ok := m[k]`; the nil map has no entries. -/
def mapGet {K V : Type} [DecidableEq K] (m : GoMap K V) (k : K) : Option V :=
  match m with
  | none => none
  | some a => a.lookup k

/-- The builtin `delete(m, k)`; deleting from the nil map does nothing. -/
def mapDelete {K V : Type} [DecidableEq K] (m : GoMap K V) (k : K) : GoMap K V :=
  match m with
  | none => none
  | some a => some (a.erase k)

/-- The keys of a map, as `range` may yield them (in some order). -/
def mapKeys {K V : Type} (m : GoMap K V) : List K :=
  match m with
  | none => []
  | some a => a.keys

/-- The number of values of a `uint64`. -/
def uint64Size : Nat := 2 ^ 64

/-! ## `MessageSequenceBuffer` (`internal/message_buffer.go`) -/

/-- The struct `MessageSequenceBuffer`; the mutex `m` is not a field of the model,
each method being one atomic step. -/
structure MessageSequenceBuffer where
  current : Nat
  buffer : GoMap Nat Message

namespace MessageSequenceBuffer

/-- The zero value `MessageSequenceBuffer{}`: cursor 0 and a nil map. -/
def zero : MessageSequenceBuffer := ⟨0, none⟩

/-- One iteration of the body of `for key := range b.buffer` in `init`. -/
def initStep (x key : Nat) : Nat :=
  if x = 0 ∨ key < x then key else x

/-- The method `init`. `order` is the order in which `range b.buffer` yields the keys. -/
def init (b : MessageSequenceBuffer) (order : List Nat) : MessageSequenceBuffer :=
  if b.buffer = none ∨ mapLen b.buffer = 0 then b
  else { b with current := order.foldl initStep 0 }

/-- The method `pop`: the returned pair `(Message, error)` and the buffer afterwards. -/
def pop (b : MessageSequenceBuffer) : (Message × GoError) × MessageSequenceBuffer :=
  match mapGet b.buffer b.current with
  | some val =>
      ((val, none),
        { current := (b.current + 1) % uint64Size, buffer := mapDelete b.buffer b.current })
  | none => ((Message.zero, some "sequence item does not exist"), b)

/-- The method `Add`: the returned error and the buffer afterwards. -/
def Add (b : MessageSequenceBuffer) (i : Nat) (val : Message) :
    GoError × MessageSequenceBuffer :=
  if b.current > i then
    (some ("given sequence id is lower than the current sequence, current: "
        ++ toString b.current ++ ", given: " ++ toString i), b)
  else
    let buf : AList (fun _ : Nat => Message) :=
      match b.buffer with
      | none => ∅
      | some a => a
    (none, { b with buffer := some (buf.insert i val) })

/-- The inner loop `for len(b.buffer) > 0` of the drainer goroutine, run without
interruption: the messages sent on `ch`, in order, and the buffer afterwards.
Every iteration that does not leave the loop deletes one entry, so `fuel` iterations
suffice once `fuel` is at least `len(b.buffer)`. -/
def drainLoop : Nat → MessageSequenceBuffer → List Message × MessageSequenceBuffer
  | 0, b => ([], b)
  | fuel + 1, b =>
      if mapLen b.buffer > 0 then
        match b.pop with
        | ((val, none), b1) =>
            let r := drainLoop fuel b1
            (val :: r.1, r.2)
        | ((_, some _), b1) => ([], b1)
      else ([], b)

/-- One tick of the drainer goroutine of `Consume`, run without interruption. -/
def drainerTick (b : MessageSequenceBuffer) : List Message × MessageSequenceBuffer :=
  if b.current = 0 then ([], b) else drainLoop (mapLen b.buffer) b

/-- A series of calls `b.Add(i, val)`, one after the other; the returned errors
are dropped, as the callers in the tests do. -/
def addAll (b : MessageSequenceBuffer) (adds : List (Nat × Message)) :
    MessageSequenceBuffer :=
  adds.foldl (fun b a => (b.Add a.1 a.2).2) b

/-- The calls of `TestMessageSequenceBuffer_ConsumeStartsWithLowestId`. -/
def scenarioLowestId : List (Nat × Message) :=
  [(100, Message.lit 1 "too big"), (1000, Message.lit 2 "way too big"),
    (10, Message.lit 2 "just right")]

/-- Two calls of `Add`, the first under sequence number zero. -/
def scenarioZeroKey : List (Nat × Message) :=
  [(0, Message.lit 0 "zero"), (5, Message.lit 5 "five")]

/-- The largest `uint64`. -/
def maxUint64 : Nat := 18446744073709551615

/-- The buffer of `TestMessageSequenceBuffer_ConsumeWaitsMissingMessages` once its
initializer has run: keys 1, 2 and 4, cursor 1. -/
def scenarioGap : MessageSequenceBuffer :=
  (zero.addAll [(1, Message.lit 1 "1"), (2, Message.lit 2 "2"), (4, Message.lit 4 "4")]).init
    [1, 2, 4]

/-- The buffer of `TestMessageSequenceBuffer_AddErrorsOnPreviousSequenceId` after
`Add(5, Message{})`, the initializer and one tick of the drainer. -/
def scenarioStale : MessageSequenceBuffer :=
  (((zero.addAll [(5, Message.zero)]).init [5]).drainerTick).2

/-- A buffer whose only message has the largest sequence number, once initialised. -/
def scenarioLast : MessageSequenceBuffer :=
  (zero.addAll [(maxUint64, Message.lit 1 "last")]).init [maxUint64]

end MessageSequenceBuffer

/-! ## `Consume` as a step function over a schedule -/

/-- What can happen to a buffer on which `Consume` has been called. -/
inductive Event where
  /-- a call `b.Add(i, val)` from any goroutine -/
  | add (i : Nat) (val : Message)
  /-- the initializer goroutine receives from its ticker and calls `init`, whose
  `range` yields the keys in the given order -/
  | initTick (order : List Nat)
  /-- the drainer goroutine receives from its ticker -/
  | drainTick
  /-- the drainer goroutine runs one iteration of `for len(b.buffer) > 0` -/
  | drainIter

/-- Whether the event is a call of `Add`. -/
def Event.isAdd : Event → Bool
  | .add _ _ => true
  | _ => false

/-- The buffer together with the control state of the two goroutines of `Consume`
and the history of the channel. Each message in `sent` carries, as a label that
is not part of the program, the value of the cursor at which `pop` found it. -/
structure ConsumeState where
  b : MessageSequenceBuffer
  /-- the initializer goroutine has not returned yet -/
  initRunning : Bool
  /-- the drainer goroutine is inside `for len(b.buffer) > 0` -/
  draining : Bool
  /-- the messages sent on `ch` so far, oldest first -/
  sent : List (Nat × Message)

/-- The state right after `Consume` was called on buffer `b`. -/
def ConsumeState.start (b : MessageSequenceBuffer) : ConsumeState :=
  ⟨b, true, false, []⟩

/-- The state in which the initializer goroutine has returned, the drainer waits
for its ticker and nothing has been sent yet. -/
def ConsumeState.active (b : MessageSequenceBuffer) : ConsumeState :=
  ⟨b, false, false, []⟩

/-- The messages on the channel, without the labels. -/
def ConsumeState.channel (s : ConsumeState) : List Message :=
  s.sent.map Prod.snd

/-- One step of the system. -/
def step (s : ConsumeState) : Event → ConsumeState
  | .add i val => { s with b := (s.b.Add i val).2 }
  | .initTick order =>
      if s.initRunning then
        let b1 := s.b.init order
        { s with b := b1, initRunning := decide (b1.current = 0) }
      else s
  | .drainTick =>
      if s.draining then s
      else if s.b.current = 0 then s
      else { s with draining := true }
  | .drainIter =>
      if s.draining then
        if mapLen s.b.buffer > 0 then
          match s.b.pop with
          | ((val, none), b1) => { s with b := b1, sent := s.sent ++ [(s.b.current, val)] }
          | ((_, some _), b1) => { s with b := b1, draining := false }
        else { s with draining := false }
      else s

/-- Run a schedule. -/
def run (s : ConsumeState) (evs : List Event) : ConsumeState :=
  evs.foldl step s

/-- The schedule of `TestMessageSequenceBuffer_ConsumeWaitsMissingMessages` after
initialisation: a tick that stops at the gap 3, the late `Add(3, _)`, a second tick. -/
def scheduleGap : List Event :=
  [.drainTick, .drainIter, .drainIter, .drainIter, .add 3 (Message.lit 3 "3"),
    .drainTick, .drainIter, .drainIter, .drainIter]

/-- `Add(0, _)` and `Add(2 ^ 64 - 1, _)` on a fresh buffer, then an initializer tick
whose `range` yields the key 0 first. -/
def scheduleWrapInit : List Event :=
  [.add 0 (Message.lit 0 "zero"), .add MessageSequenceBuffer.maxUint64 (Message.lit 1 "last"),
    .initTick [0, MessageSequenceBuffer.maxUint64]]

/-- The schedule of `TestMessageSequenceBuffer_ConsumeWaitsForMessages`: the first
window elapses on the empty buffer, `Add(123, Message{})` follows, the initializer
ticks again, the drainer ticks. -/
def scheduleLateAdd : List Event :=
  [.initTick [], .add 123 Message.zero, .initTick [123], .drainTick, .drainIter]

/-- The same schedule with the message added under sequence number zero, followed by
one more round of ticks. -/
def scheduleLateAddZero : List Event :=
  [.initTick [], .add 0 (Message.lit 0 "zero"), .initTick [0], .drainTick, .drainIter,
    .initTick [0], .drainTick, .drainIter]

/-! ## `DrainableStan` (`internal/drainable.go`) -/

/-- The struct `DrainableStan`, without the embedded connection and the mutex. -/
structure DrainableStan where
  bucket : GoMap String Unit

namespace DrainableStan

/-- The zero value `DrainableStan{}`. -/
def zero : DrainableStan := ⟨none⟩

/-- The method `add`. -/
def add (d : DrainableStan) (id : String) : DrainableStan :=
  let bucket : AList (fun _ : String => Unit) :=
    match d.bucket with
    | none => ∅
    | some a => a
  { d with bucket := some (bucket.insert id ()) }

/-- The method `remove`. -/
def remove (d : DrainableStan) (id : String) : DrainableStan :=
  { d with bucket := mapDelete d.bucket id }

end DrainableStan

/-- What the `select` of `Drain` and the goroutines around it can do. -/
inductive DrainEvent where
  /-- the case `<-t.C`: the 5 ms ticker fired and `select` took it -/
  | poll
  /-- the case `<-to.C`: the timer fired and `select` took it -/
  | timeout
  /-- a concurrent call `d.add(id)` -/
  | track (id : String)
  /-- a concurrent call `d.remove(id)` -/
  | untrack (id : String)
  deriving DecidableEq

/-- The pending set after the concurrent calls among the given events. -/
def DrainableStan.after (d : DrainableStan) : List DrainEvent → DrainableStan
  | [] => d
  | .track id :: rest => (d.add id).after rest
  | .untrack id :: rest => (d.remove id).after rest
  | _ :: rest => d.after rest

/-- The value of `len(d.bucket)` at the moment the `k`-th event of the schedule
takes place (events are counted from zero). -/
def DrainableStan.pendingAt (d : DrainableStan) (sched : List DrainEvent) (k : Nat) : Nat :=
  mapLen (d.after (sched.take k)).bucket

/-- The text `fmt.Sprintf("timed out waiting for %d acks", n)`. -/
def drainTimeoutText (n : Nat) : String :=
  "timed out waiting for " ++ toString n ++ " acks"

/-- The method `Drain` against a schedule: `none` while it is still blocked in
`select` at the end of the schedule, `some err` once it has returned `err`.
The argument `timeout` of the method fixes when the timer fires, that is, where
the event `timeout` stands in the schedule. -/
def DrainableStan.Drain (d : DrainableStan) : List DrainEvent → Option GoError
  | [] => none
  | .poll :: rest => if mapLen d.bucket ≤ 0 then some none else d.Drain rest
  | .timeout :: _ => some (some (drainTimeoutText (mapLen d.bucket)))
  | .track id :: rest => (d.add id).Drain rest
  | .untrack id :: rest => (d.remove id).Drain rest

/-- The call `Drain(1 * time.Millisecond)` without concurrent calls: the timer fires
one millisecond after the call and the ticker, whose period is 5 ms, four milliseconds
later, so the first and only case that `select` takes is the timer. -/
def scheduleShortTimeout : List DrainEvent :=
  [.timeout]

/-- Scenario C of the specification: `a` and `b` are tracked, `a` is untracked,
`b` never is; the ticker fires twice before the timer. -/
def scheduleScenarioC : List DrainEvent :=
  [.track "a", .track "b", .untrack "a", .poll, .poll, .timeout]

/-! ## Sequences of buffer operations -/

/-- The operations that change a `MessageSequenceBuffer`: a call of `Add`, a call of
`init` (with the order in which its `range` yields the keys) and a call of `pop`. -/
inductive BufferOp where
  | add (i : Nat) (val : Message)
  | init (order : List Nat)
  | pop

/-- Whether the operation is an `Add` under sequence number zero. -/
def BufferOp.addsZero : BufferOp → Bool
  | .add i _ => decide (i = 0)
  | _ => false

/-- The buffer after one operation; what the operation returns is dropped. -/
def MessageSequenceBuffer.apply (b : MessageSequenceBuffer) : BufferOp → MessageSequenceBuffer
  | .add i val => (b.Add i val).2
  | .init order => b.init order
  | .pop => b.pop.2

/-- The buffer after a series of operations. -/
def MessageSequenceBuffer.applyAll (b : MessageSequenceBuffer) (ops : List BufferOp) :
    MessageSequenceBuffer :=
  ops.foldl MessageSequenceBuffer.apply b

/-- Every `init` in the series visits the keys that the buffer holds at that moment,
each once, in some order. -/
def opsOrdered : MessageSequenceBuffer → List BufferOp → Prop
  | _, [] => True
  | b, .init order :: rest => order.Perm (mapKeys b.buffer) ∧ opsOrdered (b.init order) rest
  | b, op :: rest => opsOrdered (b.apply op) rest

/-- A message added under sequence number 0, one under 5, and an `init` whose `range`
yields the key 0 first. -/
def opsZeroKey : List BufferOp :=
  [.add 0 (Message.lit 0 "zero"), .add 5 (Message.lit 5 "five"), .init [0, 5]]

/-- Messages added under 3 and 1, `init`, `pop`, a late message under 2, `pop`. -/
def opsInOrder : List BufferOp :=
  [.add 3 (Message.lit 3 "3"), .add 1 (Message.lit 1 "1"), .init [3, 1], .pop,
    .add 2 (Message.lit 2 "2"), .pop]

/-- A message under the largest sequence number, the initializer tick that finds it,
and a drainer tick. -/
def scheduleLast : List Event :=
  [.add MessageSequenceBuffer.maxUint64 (Message.lit 1 "last"),
    .initTick [MessageSequenceBuffer.maxUint64], .drainTick]

/-- The messages 1, 2 and 4 are added to a fresh buffer, the initializer ticks, the
drainer ticks. -/
def scheduleGapStart : List Event :=
  [.add 1 (Message.lit 1 "1"), .add 2 (Message.lit 2 "2"), .add 4 (Message.lit 4 "4"),
    .initTick [1, 2, 4], .drainTick]

/-! ## The wrappers of `DrainableStan` -/

/-- What a handler or the connection can read and write: the tracker (they hold a
pointer to it) and the rest of the program state, of some type `σ`. -/
abbrev World (σ : Type) := DrainableStan × σ

/-- The type `stan.AckHandler`, a `func(string, error)`, with its effect on the world. -/
abbrev AckHandlerFn (σ : Type) := String → GoError → World σ → World σ

/-- The method `PublishAsync(subject, data, ah)` of the embedded `stan.Conn`, which is
not part of this repository: the pair `(string, error)` it returns and its effect. -/
abbrev ConnPublishAsync (σ : Type) :=
  String → List Nat → AckHandlerFn σ → World σ → (String × GoError) × World σ

/-- The method `PublishAsync` of `DrainableStan`. -/
def DrainableStan.PublishAsync {σ : Type} (conn : ConnPublishAsync σ) (subject : String)
    (data : List Nat) (fn : AckHandlerFn σ) (w : World σ) : (String × GoError) × World σ :=
  let r := conn subject data fn w
  if r.1.2 = none then (r.1, (r.2.1.add r.1.1, r.2.2)) else (r.1, r.2)

/-- The method `AckHandler` of `DrainableStan`. -/
def DrainableStan.AckHandler {σ : Type} (fn : AckHandlerFn σ) : AckHandlerFn σ :=
  fun s e w => fn s e (w.1.remove s, w.2)

/-- The stub of `MockStan` in the tests: it returns `("abc", nil)` and does nothing. -/
def mockPublishAsync {σ : Type} : ConnPublishAsync σ :=
  fun _ _ _ w => (("abc", none), w)

/-- A connection that refuses to publish. -/
def failingPublishAsync {σ : Type} : ConnPublishAsync σ :=
  fun _ _ _ w => (("", some "stan: connection closed"), w)

/-- The handler `func(id string, err error) {}` of the tests. -/
def noopHandler {σ : Type} : AckHandlerFn σ :=
  fun _ _ w => w

/-- A handler that records its arguments and the size of the pending set it sees. -/
def recordingHandler : AckHandlerFn (List (String × GoError × Nat)) :=
  fun s e w => (w.1, w.2 ++ [(s, e, mapLen w.1.bucket)])

/-- The bytes of "bar". -/
def barBytes : List Nat := [98, 97, 114]

/-- Whether the event is a call `d.add(id)`. -/
def DrainEvent.isTrack : DrainEvent → Bool
  | .track _ => true
  | _ => false

/-- Whether the event is a call `d.remove(id)`. -/
def DrainEvent.isUntrack : DrainEvent → Bool
  | .untrack _ => true
  | _ => false

/-- The discipline of the callers, stated without looking at the tracker: given the
ids tracked so far (`seen`) and those of them not yet untracked (`live`), every
`track` in the series uses an id never tracked before and every `untrack` targets
an id that is tracked and not yet untracked. -/
def callsDisciplined : List String → List String → List DrainEvent → Prop
  | _, _, [] => True
  | seen, live, .track id :: rest =>
      id ∉ seen ∧ callsDisciplined (id :: seen) (id :: live) rest
  | seen, live, .untrack id :: rest =>
      id ∈ live ∧ callsDisciplined seen (live.erase id) rest
  | seen, live, _ :: rest => callsDisciplined seen live rest

/-- Calls of three callers, serialised: `a`, `b` and `c` are tracked, `a` and `c`
are untracked. -/
def callsInterleaved : List DrainEvent :=
  [.track "a", .track "b", .untrack "a", .track "c", .untrack "c"]

/-! ## `Producer.SetOptions` (`internal/producer.go`, `internal/ascii_demo.go`) -/

/-- The struct `ProducerOptions`. A `time.Duration` is a number of nanoseconds; the
`float64` ratio is a binary64 floating-point number. -/
structure ProducerOptions where
  Cluster : String
  ClientId : String
  ConnectionString : String
  Subject : String
  MaxInFlightAcks : Int
  PublishDelay : Int
  DrainTimeout : Int
  BatchSize : Int
  Sync : Bool
  LocalFile : String
  RemoteFile : String
  ImageSizeRatio : Float

/-- The zero value `ProducerOptions{}`. -/
def ProducerOptions.zero : ProducerOptions :=
  ⟨"", "", "", "", 0, 0, 0, 0, false, "", "", 0⟩

/-- The struct `ConnectionInfo`. -/
structure ConnectionInfo where
  Cluster : String
  ClientId : String
  ConnectionString : String
  Subject : String

/-- The struct `Producer`: the connection info of the embedded `NatsClient` and the
options; the tracker and the statistics play no part in `SetOptions`. -/
structure Producer where
  conn : ConnectionInfo
  options : ProducerOptions

/-- The zero value `Producer{}`. -/
def Producer.zero : Producer := ⟨⟨"", "", "", ""⟩, ProducerOptions.zero⟩

/-- The constant `time.Millisecond`, in nanoseconds. -/
def millisecond : Int := 1000000

/-- The constant `time.Second`, in nanoseconds. -/
def second : Int := 1000 * millisecond

/-- The constant `DefaultClusterId`. -/
def DefaultClusterId : String := "test-cluster"

/-- The constant `DefaultProducerClientId`. -/
def DefaultProducerClientId : String := "ascii-producer"

/-- The constant `DefaultSubject`. -/
def DefaultSubject : String := "ascii"

/-- The constant `DefaultConnectionString`. -/
def DefaultConnectionString : String := "nats://0.0.0.0:4222"

/-- The constant `DefaultMaxPubAcksInflight`. -/
def DefaultMaxPubAcksInflight : Int := 16384

/-- The constant `DefaultImageSizeRatio`, 0.08. -/
def DefaultImageSizeRatio : Float := 0.08

/-- The constant `DefaultPublishDelay`, `5 * time.Millisecond`. -/
def DefaultPublishDelay : Int := 5 * millisecond

/-- The default that the help text of the flag `-delay` in `cmd/producer.go`
announces: "Defaults to 3ms". -/
def documentedPublishDelay : Int := 3 * millisecond

/-- The method `SetConnection` of `NatsClient`; `env` is `os.Getenv`. -/
def SetConnection (env : String → String) (ci : ConnectionInfo) : ConnectionInfo :=
  let ci1 : ConnectionInfo :=
    if ci.Cluster = "" then
      if env "NATS_CLUSTER" ≠ "" then { ci with Cluster := env "NATS_CLUSTER" }
      else { ci with Cluster := DefaultClusterId }
    else ci
  if ci1.ConnectionString = "" then
    if env "NATS_CONNECTION_STRING" ≠ "" then
      { ci1 with ConnectionString := env "NATS_CONNECTION_STRING" }
    else { ci1 with ConnectionString := DefaultConnectionString }
  else ci1

/-- What `mergo.Merge(&d, opts, mergo.WithOverride)` does to two values of this struct
type (the library is not part of this repository): every field of `opts` that is
not the zero value of its type replaces the field of `d`. -/
def mergeWithOverride (d opts : ProducerOptions) : ProducerOptions :=
  { Cluster := if opts.Cluster = "" then d.Cluster else opts.Cluster
    ClientId := if opts.ClientId = "" then d.ClientId else opts.ClientId
    ConnectionString :=
      if opts.ConnectionString = "" then d.ConnectionString else opts.ConnectionString
    Subject := if opts.Subject = "" then d.Subject else opts.Subject
    MaxInFlightAcks :=
      if opts.MaxInFlightAcks = 0 then d.MaxInFlightAcks else opts.MaxInFlightAcks
    PublishDelay := if opts.PublishDelay = 0 then d.PublishDelay else opts.PublishDelay
    DrainTimeout := if opts.DrainTimeout = 0 then d.DrainTimeout else opts.DrainTimeout
    BatchSize := if opts.BatchSize = 0 then d.BatchSize else opts.BatchSize
    Sync := if opts.Sync = false then d.Sync else opts.Sync
    LocalFile := if opts.LocalFile = "" then d.LocalFile else opts.LocalFile
    RemoteFile := if opts.RemoteFile = "" then d.RemoteFile else opts.RemoteFile
    ImageSizeRatio :=
      if opts.ImageSizeRatio == 0 then d.ImageSizeRatio else opts.ImageSizeRatio }

/-- The method `SetOptions`: the returned error and the producer afterwards. -/
def Producer.SetOptions (p : Producer) (env : String → String) (opts : ProducerOptions) :
    GoError × Producer :=
  let d0 : ProducerOptions :=
    { ProducerOptions.zero with
      ClientId := DefaultProducerClientId
      Subject := DefaultSubject
      MaxInFlightAcks := DefaultMaxPubAcksInflight
      ImageSizeRatio := DefaultImageSizeRatio
      DrainTimeout := 60 * second
      PublishDelay := DefaultPublishDelay
      BatchSize := 1 }
  let d1 := mergeWithOverride d0 opts
  let d2 : ProducerOptions :=
    if opts.PublishDelay = 0 then { d1 with PublishDelay := 0 } else d1
  let d : ProducerOptions :=
    if d2.ImageSizeRatio != DefaultImageSizeRatio then
      { d2 with ImageSizeRatio := d2.ImageSizeRatio * 0.1 }
    else d2
  let p1 : Producer :=
    { p with conn := SetConnection env ⟨d.Cluster, d.ClientId, d.ConnectionString, d.Subject⟩ }
  if d.LocalFile = "" ∧ d.RemoteFile = "" then
    (some "an image file must be specified with `-file` or `-remote`", p1)
  else (none, { p1 with options := d })

/-- The method `GetOptions`. -/
def Producer.GetOptions (p : Producer) : ProducerOptions := p.options

/-- The options of `producer -file image.png`, every other flag left at its default
and the delay unset. -/
def optionsFileOnly : ProducerOptions :=
  { ProducerOptions.zero with
    LocalFile := "image.png"
    BatchSize := 1
    MaxInFlightAcks := 16384 }

/-- An environment without variables. -/
def emptyEnv : String → String := fun _ => ""

/-! ## `batchCharacters` (`internal/producer.go`) -/

/-- The value of a Go `int` (64 bits, two's complement) that results from an
arithmetic operation whose exact result is `x`. -/
def wrapInt (x : Int) : Int :=
  (x + 9223372036854775808) % 18446744073709551616 - 9223372036854775808

/-- The largest `int`. -/
def maxInt : Int := 9223372036854775807

/-- The loop `for i := 0; i < len(characters); i += chunksize` of `batchCharacters`,
entered with the given `i` and `chunked`. The result is `none` when the slice
expression `characters[i:end]` panics (and when `fuel` runs out, which
`len(characters) + 1` iterations never do for a positive `chunksize`). -/
def batchLoop (characters : List String) (chunksize : Int) :
    Nat → Int → List String → Option (List String)
  | 0, _, _ => none
  | fuel + 1, i, chunked =>
      if i < (characters.length : Int) then
        let end0 := wrapInt (i + chunksize)
        let end1 := if end0 > (characters.length : Int) then (characters.length : Int) else end0
        if 0 ≤ i ∧ i ≤ end1 then
          batchLoop characters chunksize fuel (wrapInt (i + chunksize))
            (chunked ++ [String.join ((characters.drop i.toNat).take (end1 - i).toNat)])
        else none
      else some chunked

/-- The function `batchCharacters`; `none` is a run-time panic: the division by a
zero `chunksize`, `make` with a negative capacity, or a slice out of bounds. -/
def batchCharacters (characters : List String) (chunksize : Int) : Option (List String) :=
  if chunksize = 0 then none
  else
    let s := wrapInt (Int.tdiv
      (wrapInt (wrapInt ((characters.length : Int) + chunksize) - 1)) chunksize)
    if s < 0 then none
    else batchLoop characters chunksize (characters.length + 1) 0 []

/-! ## Facts about Go maps -/

theorem mapLen_eq_length_keys {K V : Type} (m : GoMap K V) :
    mapLen m = (mapKeys m).length := by
  cases m with
  | none => rfl
  | some a => simp [mapLen, mapKeys, AList.keys, List.keys]

theorem mapKeys_nodup {K V : Type} (m : GoMap K V) : (mapKeys m).Nodup := by
  cases m with
  | none => exact List.nodup_nil
  | some a => exact a.keys_nodup

theorem mapGet_isSome_iff {K V : Type} [DecidableEq K] (m : GoMap K V) (k : K) :
    (mapGet m k).isSome ↔ k ∈ mapKeys m := by
  cases m with
  | none => simp [mapGet, mapKeys]
  | some a => simp [mapGet, mapKeys, AList.lookup_isSome, AList.mem_keys]

theorem mapGet_eq_none_iff {K V : Type} [DecidableEq K] (m : GoMap K V) (k : K) :
    mapGet m k = none ↔ k ∉ mapKeys m := by
  rw [← mapGet_isSome_iff]
  cases mapGet m k <;> simp

theorem mapGet_delete_self {K V : Type} [DecidableEq K] (m : GoMap K V) (k : K) :
    mapGet (mapDelete m k) k = none := by
  cases m with
  | none => rfl
  | some a => simp [mapGet, mapDelete, AList.lookup_erase]

theorem mapGet_delete_ne {K V : Type} [DecidableEq K] (m : GoMap K V) {j k : K}
    (h : j ≠ k) : mapGet (mapDelete m k) j = mapGet m j := by
  cases m with
  | none => rfl
  | some a => simp [mapGet, mapDelete, AList.lookup_erase_ne h]

theorem mapLen_delete_of_get {K V : Type} [DecidableEq K] (m : GoMap K V) (k : K) (v : V)
    (h : mapGet m k = some v) : mapLen (mapDelete m k) + 1 = mapLen m := by
  have hk : k ∈ mapKeys m := by
    rw [← mapGet_isSome_iff, h]; rfl
  cases m with
  | none => simp [mapKeys] at hk
  | some a =>
    simp only [mapKeys] at hk
    rw [mapLen_eq_length_keys, mapLen_eq_length_keys]
    simp only [mapDelete, mapKeys, AList.keys_erase]
    rw [List.length_erase_of_mem hk]
    have : 0 < a.keys.length := List.length_pos_of_mem hk
    omega

theorem mapLen_pos_of_get {K V : Type} [DecidableEq K] (m : GoMap K V) (k : K) (v : V)
    (h : mapGet m k = some v) : 0 < mapLen m := by
  have := mapLen_delete_of_get m k v h
  omega

/-! ## `Add` -/

theorem Add_of_lt (b : MessageSequenceBuffer) (i : Nat) (val : Message) (h : i < b.current) :
    b.Add i val =
      (some ("given sequence id is lower than the current sequence, current: "
        ++ toString b.current ++ ", given: " ++ toString i), b) := by
  unfold MessageSequenceBuffer.Add
  rw [if_pos h]

theorem Add_of_le (b : MessageSequenceBuffer) (i : Nat) (val : Message) (h : b.current ≤ i) :
    b.Add i val =
      (none, { b with buffer := some ((match b.buffer with
                                        | none => (∅ : AList (fun _ : Nat => Message))
                                        | some a => a).insert i val) }) := by
  unfold MessageSequenceBuffer.Add
  rw [if_neg (by omega)]

theorem mapGet_Add_self (b : MessageSequenceBuffer) (i : Nat) (val : Message)
    (h : b.current ≤ i) : mapGet (b.Add i val).2.buffer i = some val := by
  rw [Add_of_le b i val h]
  simp [mapGet, AList.lookup_insert]

theorem mapGet_Add_ne (b : MessageSequenceBuffer) (i : Nat) (val : Message)
    (h : b.current ≤ i) {j : Nat} (hj : j ≠ i) :
    mapGet (b.Add i val).2.buffer j = mapGet b.buffer j := by
  rw [Add_of_le b i val h]
  cases hb : b.buffer with
  | none =>
    simp only [mapGet]
    rw [AList.lookup_insert_ne hj, AList.lookup_empty]
  | some a =>
    simp only [mapGet]
    rw [AList.lookup_insert_ne hj]

theorem mapLen_insert {K V : Type} [DecidableEq K] (a : AList (fun _ : K => V)) (k : K)
    (v : V) :
    mapLen (some (a.insert k v)) =
      (if (mapGet (some a) k).isSome then mapLen (some a) else mapLen (some a) + 1) := by
  rw [mapLen_eq_length_keys, mapLen_eq_length_keys]
  simp only [mapKeys, AList.keys_insert, List.length_cons]
  by_cases hk : k ∈ a.keys
  · have hs : (mapGet (some a) k).isSome := (mapGet_isSome_iff (some a) k).2 hk
    rw [if_pos hs, List.length_erase_of_mem hk]
    have : 0 < a.keys.length := List.length_pos_of_mem hk
    omega
  · have hs : ¬ (mapGet (some a) k).isSome := fun hc => hk ((mapGet_isSome_iff (some a) k).1 hc)
    rw [if_neg hs, List.erase_of_not_mem hk]

theorem mapLen_Add_of_le (b : MessageSequenceBuffer) (i : Nat) (val : Message)
    (h : b.current ≤ i) :
    mapLen (b.Add i val).2.buffer =
      (if (mapGet b.buffer i).isSome then mapLen b.buffer else mapLen b.buffer + 1) := by
  rw [Add_of_le b i val h]
  cases hb : b.buffer with
  | none =>
    simp [mapGet, mapLen]
  | some a => exact mapLen_insert a i val

/-- C3. `Add` with a sequence number strictly below the cursor returns an error and
leaves the buffer as it was: same entries, same size, same cursor. -/
theorem add_below_cursor_rejected (b : MessageSequenceBuffer) (i : Nat) (val : Message)
    (h : i < b.current) :
    (b.Add i val).1 =
        some ("given sequence id is lower than the current sequence, current: "
          ++ toString b.current ++ ", given: " ++ toString i) ∧
      (b.Add i val).2 = b ∧
      (∀ j, mapGet (b.Add i val).2.buffer j = mapGet b.buffer j) ∧
      mapLen (b.Add i val).2.buffer = mapLen b.buffer ∧
      (b.Add i val).2.current = b.current := by
  rw [Add_of_lt b i val h]
  exact ⟨rfl, rfl, fun _ => rfl, rfl, rfl⟩

/-- C5. `Add` with a sequence number at or above the cursor returns nil; afterwards
the buffer is allocated and maps `i` to `val`, whatever was stored at `i` before; every
other key and the cursor are as before; the size grows by one exactly when `i` was
absent, so that an empty (or nil) buffer ends with exactly one entry. -/
theorem add_at_or_above_cursor_stores (b : MessageSequenceBuffer) (i : Nat) (val : Message)
    (h : b.current ≤ i) :
    (b.Add i val).1 = none ∧
      mapGet (b.Add i val).2.buffer i = some val ∧
      (∀ j, j ≠ i → mapGet (b.Add i val).2.buffer j = mapGet b.buffer j) ∧
      (b.Add i val).2.current = b.current ∧
      (b.Add i val).2.buffer ≠ none ∧
      mapLen (b.Add i val).2.buffer =
        (if (mapGet b.buffer i).isSome then mapLen b.buffer else mapLen b.buffer + 1) ∧
      (mapLen b.buffer = 0 → mapLen (b.Add i val).2.buffer = 1) := by
  have hlen : mapLen (b.Add i val).2.buffer =
      (if (mapGet b.buffer i).isSome then mapLen b.buffer else mapLen b.buffer + 1) :=
    mapLen_Add_of_le b i val h
  refine ⟨by rw [Add_of_le b i val h], mapGet_Add_self b i val h,
    fun j hj => mapGet_Add_ne b i val h hj, by rw [Add_of_le b i val h],
    by rw [Add_of_le b i val h]; simp, hlen, ?_⟩
  intro h0
  rw [hlen]
  have hnone : mapGet b.buffer i = none := by
    rw [mapGet_eq_none_iff]
    intro hmem
    have := List.length_pos_of_mem hmem
    rw [← mapLen_eq_length_keys] at this
    omega
  simp [hnone, h0]

/-- Witness for C3: in `TestMessageSequenceBuffer_AddErrorsOnPreviousSequenceId` the
message added under 5 has been consumed, the cursor is 6, and `Add(1, _)` is rejected. -/
theorem add_below_cursor_rejected_witness :
    1 < MessageSequenceBuffer.scenarioStale.current ∧
      (MessageSequenceBuffer.scenarioStale.Add 1 Message.zero).1 =
        some "given sequence id is lower than the current sequence, current: 6, given: 1" ∧
      (MessageSequenceBuffer.scenarioStale.Add 1 Message.zero).2
        = MessageSequenceBuffer.scenarioStale ∧
      mapLen (MessageSequenceBuffer.scenarioStale.Add 1 Message.zero).2.buffer = 0 :=
  have h := add_below_cursor_rejected MessageSequenceBuffer.scenarioStale 1 Message.zero
    (by decide)
  ⟨by decide, h.1.trans (by decide), h.2.1, h.2.2.2.1.trans (by decide)⟩

/-- Witness for C5: `Add(123, Message{})` on the zero-valued buffer, as in the test. -/
theorem add_at_or_above_cursor_stores_witness :
    MessageSequenceBuffer.zero.current ≤ 123 ∧
      (MessageSequenceBuffer.zero.Add 123 Message.zero).1 = none ∧
      mapGet (MessageSequenceBuffer.zero.Add 123 Message.zero).2.buffer 123
        = some Message.zero ∧
      mapLen (MessageSequenceBuffer.zero.Add 123 Message.zero).2.buffer = 1 :=
  have h := add_at_or_above_cursor_stores MessageSequenceBuffer.zero 123 Message.zero
    (by decide)
  ⟨by decide, h.1, h.2.1, h.2.2.2.2.2.2 (by decide)⟩

/-! ## `init` -/

theorem foldl_initStep_of_ne_zero (order : List Nat) (x : Nat) (hx : x ≠ 0)
    (h0 : ∀ k ∈ order, k ≠ 0) :
    (order.foldl MessageSequenceBuffer.initStep x = x ∨
        order.foldl MessageSequenceBuffer.initStep x ∈ order) ∧
      order.foldl MessageSequenceBuffer.initStep x ≤ x ∧
      ∀ k ∈ order, order.foldl MessageSequenceBuffer.initStep x ≤ k := by
  induction order generalizing x with
  | nil => simp
  | cons key rest ih =>
    have hkey : key ≠ 0 := h0 key (List.mem_cons_self _ _)
    have hrest : ∀ k ∈ rest, k ≠ 0 := fun k hk => h0 k (List.mem_cons_of_mem _ hk)
    rw [List.foldl_cons]
    by_cases hlt : key < x
    · have hs : MessageSequenceBuffer.initStep x key = key := by
        simp [MessageSequenceBuffer.initStep, hlt]
      rw [hs]
      obtain ⟨h1, h2, h3⟩ := ih key hkey hrest
      refine ⟨Or.inr ?_, by omega, ?_⟩
      · rcases h1 with h1 | h1
        · rw [h1]; exact List.mem_cons_self _ _
        · exact List.mem_cons_of_mem _ h1
      · intro k hk
        rcases List.mem_cons.1 hk with rfl | hk
        · exact h2
        · exact h3 k hk
    · have hs : MessageSequenceBuffer.initStep x key = x := by
        simp [MessageSequenceBuffer.initStep, hlt, hx]
      rw [hs]
      obtain ⟨h1, h2, h3⟩ := ih x hx hrest
      refine ⟨?_, h2, ?_⟩
      · rcases h1 with h1 | h1
        · exact Or.inl h1
        · exact Or.inr (List.mem_cons_of_mem _ h1)
      · intro k hk
        rcases List.mem_cons.1 hk with rfl | hk
        · omega
        · exact h3 k hk

/-- When no key is zero, the loop of `init` computes the least key, in whatever
order `range` yields the keys. -/
theorem foldl_initStep_zero (order : List Nat) (hne : order ≠ [])
    (h0 : ∀ k ∈ order, k ≠ 0) :
    order.foldl MessageSequenceBuffer.initStep 0 ∈ order ∧
      ∀ k ∈ order, order.foldl MessageSequenceBuffer.initStep 0 ≤ k := by
  cases order with
  | nil => exact absurd rfl hne
  | cons key rest =>
    have hkey : key ≠ 0 := h0 key (List.mem_cons_self _ _)
    have hrest : ∀ k ∈ rest, k ≠ 0 := fun k hk => h0 k (List.mem_cons_of_mem _ hk)
    have hs : MessageSequenceBuffer.initStep 0 key = key := by simp [MessageSequenceBuffer.initStep]
    rw [List.foldl_cons, hs]
    obtain ⟨h1, h2, h3⟩ := foldl_initStep_of_ne_zero rest key hkey hrest
    refine ⟨?_, ?_⟩
    · rcases h1 with h1 | h1
      · rw [h1]; exact List.mem_cons_self _ _
      · exact List.mem_cons_of_mem _ h1
    · intro k hk
      rcases List.mem_cons.1 hk with rfl | hk
      · exact h2
      · exact h3 k hk

/-- The cursor chosen by `init` on a non-empty buffer without the key zero is the
least key of the buffer. -/
theorem init_current_least (b : MessageSequenceBuffer) (order : List Nat)
    (hlen : 0 < mapLen b.buffer) (h0 : 0 ∉ mapKeys b.buffer)
    (hperm : order.Perm (mapKeys b.buffer)) :
    (b.init order).buffer = b.buffer ∧
      (b.init order).current ∈ mapKeys b.buffer ∧
      ∀ k ∈ mapKeys b.buffer, (b.init order).current ≤ k := by
  have hnone : b.buffer ≠ none := by
    intro hb
    rw [hb] at hlen
    exact absurd hlen (by simp [mapLen])
  have hinit : b.init order =
      { b with current := order.foldl MessageSequenceBuffer.initStep 0 } := by
    unfold MessageSequenceBuffer.init
    rw [if_neg]
    rintro (h | h)
    · exact hnone h
    · omega
  have hne : order ≠ [] := by
    intro ho
    rw [ho] at hperm
    have := hperm.length_eq
    rw [← mapLen_eq_length_keys] at this
    simp at this
    omega
  have h0o : ∀ k ∈ order, k ≠ 0 := by
    intro k hk hk0
    exact h0 (hk0 ▸ hperm.mem_iff.1 hk)
  obtain ⟨h1, h2⟩ := foldl_initStep_zero order hne h0o
  rw [hinit]
  exact ⟨rfl, hperm.mem_iff.1 h1, fun k hk => h2 k (hperm.mem_iff.2 hk)⟩
theorem Add_current (b : MessageSequenceBuffer) (i : Nat) (val : Message) :
    (b.Add i val).2.current = b.current := by
  unfold MessageSequenceBuffer.Add
  split <;> rfl

theorem addAll_append (b : MessageSequenceBuffer) (l : List (Nat × Message))
    (a : Nat × Message) :
    b.addAll (l ++ [a]) = ((b.addAll l).Add a.1 a.2).2 := by
  simp [MessageSequenceBuffer.addAll, List.foldl_append]

theorem addAll_current (b : MessageSequenceBuffer) (adds : List (Nat × Message)) :
    (b.addAll adds).current = b.current := by
  induction adds using List.reverseRecOn with
  | nil => rfl
  | append_singleton l a ih => rw [addAll_append, Add_current, ih]

/-- Before the cursor is established every `Add` succeeds, and the buffer holds,
for each key, the value of the latest `Add` under that key. -/
theorem mapGet_addAll (b : MessageSequenceBuffer) (hb : b.current = 0)
    (adds : List (Nat × Message)) (k : Nat) :
    mapGet (b.addAll adds).buffer k =
      match adds.reverse.find? (fun a => decide (a.1 = k)) with
      | some a => some a.2
      | none => mapGet b.buffer k := by
  induction adds using List.reverseRecOn with
  | nil => rfl
  | append_singleton l a ih =>
    have hc : (b.addAll l).current ≤ a.1 := by rw [addAll_current, hb]; omega
    rw [addAll_append, List.reverse_append, List.reverse_singleton, List.singleton_append,
      List.find?_cons]
    by_cases hk : a.1 = k
    · subst hk
      simp [mapGet_Add_self _ _ _ hc]
    · have hk2 : k ≠ a.1 := fun h => hk h.symm
      rw [mapGet_Add_ne _ _ _ hc hk2, ih]
      simp [hk]

theorem find_reverse_of_mem_keys (adds : List (Nat × Message)) (k : Nat)
    (hk : k ∈ adds.map Prod.fst) :
    ∃ v, adds.reverse.find? (fun a => decide (a.1 = k)) = some (k, v) ∧ (k, v) ∈ adds := by
  obtain ⟨a, ha, hak⟩ := List.mem_map.1 hk
  cases hf : adds.reverse.find? (fun a => decide (a.1 = k)) with
  | none =>
    rw [List.find?_eq_none] at hf
    have := hf a (List.mem_reverse.2 ha)
    simp [hak] at this
  | some a2 =>
    have h1 := List.find?_some hf
    have h2 := List.mem_of_find?_eq_some hf
    simp only [decide_eq_true_eq] at h1
    refine ⟨a2.2, ?_, ?_⟩
    · rw [← h1]
    · rw [← h1]; exact List.mem_reverse.1 h2

theorem mem_mapKeys_addAll_zero (adds : List (Nat × Message)) (k : Nat) :
    k ∈ mapKeys (MessageSequenceBuffer.zero.addAll adds).buffer ↔ k ∈ adds.map Prod.fst := by
  rw [← mapGet_isSome_iff, mapGet_addAll _ rfl]
  constructor
  · intro h
    cases hf : adds.reverse.find? (fun a => decide (a.1 = k)) with
    | none => rw [hf] at h; simp [MessageSequenceBuffer.zero, mapGet] at h
    | some a =>
      have h1 := List.find?_some hf
      have h2 := List.mem_of_find?_eq_some hf
      simp only [decide_eq_true_eq] at h1
      exact List.mem_map.2 ⟨a, List.mem_reverse.1 h2, h1⟩
  · intro h
    obtain ⟨v, hv, -⟩ := find_reverse_of_mem_keys adds k h
    rw [hv]; rfl
/-! ## `pop` and the drainer -/

theorem pop_of_get (b : MessageSequenceBuffer) (v : Message)
    (h : mapGet b.buffer b.current = some v) :
    b.pop = ((v, none),
      { current := (b.current + 1) % uint64Size, buffer := mapDelete b.buffer b.current }) := by
  unfold MessageSequenceBuffer.pop
  rw [h]

theorem pop_of_none (b : MessageSequenceBuffer) (h : mapGet b.buffer b.current = none) :
    b.pop = ((Message.zero, some "sequence item does not exist"), b) := by
  unfold MessageSequenceBuffer.pop
  rw [h]

theorem drainLoop_succ_of_get (fuel : Nat) (b : MessageSequenceBuffer) (v : Message)
    (h : mapGet b.buffer b.current = some v) :
    MessageSequenceBuffer.drainLoop (fuel + 1) b =
      (v :: (MessageSequenceBuffer.drainLoop fuel
          { current := (b.current + 1) % uint64Size,
            buffer := mapDelete b.buffer b.current }).1,
        (MessageSequenceBuffer.drainLoop fuel
          { current := (b.current + 1) % uint64Size,
            buffer := mapDelete b.buffer b.current }).2) := by
  have hpos := mapLen_pos_of_get _ _ _ h
  rw [MessageSequenceBuffer.drainLoop, if_pos hpos, pop_of_get b v h]

theorem drainLoop_of_none (fuel : Nat) (b : MessageSequenceBuffer)
    (h : mapGet b.buffer b.current = none) :
    MessageSequenceBuffer.drainLoop fuel b = ([], b) := by
  cases fuel with
  | zero => rfl
  | succ n =>
    rw [MessageSequenceBuffer.drainLoop, pop_of_none b h]
    split <;> rfl

theorem drainerTick_head (b : MessageSequenceBuffer) (v : Message) (hc : b.current ≠ 0)
    (h : mapGet b.buffer b.current = some v) :
    ∃ rest, (b.drainerTick).1 = v :: rest := by
  have hpos := mapLen_pos_of_get _ _ _ h
  obtain ⟨n, hn⟩ : ∃ n, mapLen b.buffer = n + 1 := ⟨mapLen b.buffer - 1, by omega⟩
  unfold MessageSequenceBuffer.drainerTick
  rw [if_neg hc, hn, drainLoop_succ_of_get n b v h]
  exact ⟨_, rfl⟩

/-- From the state right after `Consume`, an initializer tick that establishes a
cursor at which a message is stored, a drainer tick and one iteration of its loop put
exactly that message on the channel. -/
theorem run_init_then_drain (b : MessageSequenceBuffer) (order : List Nat) (v : Message)
    (hc : (b.init order).current ≠ 0)
    (h : mapGet (b.init order).buffer (b.init order).current = some v) :
    (run (ConsumeState.start b) [.initTick order, .drainTick, .drainIter]).sent
      = [((b.init order).current, v)] := by
  have hpos := mapLen_pos_of_get _ _ _ h
  simp [run, step, ConsumeState.start, hc, hpos, pop_of_get _ v h]

/-! ## One uninterrupted tick of the drainer -/

/-- Consecutive keys that are all present are at most as many as the map has entries. -/
theorem le_mapLen_of_present (k : Nat) (m : GoMap Nat Message) (c : Nat)
    (h : ∀ j < k, (mapGet m (c + j)).isSome) : k ≤ mapLen m := by
  induction k generalizing m with
  | zero => omega
  | succ n ih =>
    have hn := h n (by omega)
    obtain ⟨v, hv⟩ := Option.isSome_iff_exists.1 hn
    have hdel := mapLen_delete_of_get m (c + n) v hv
    have := ih (mapDelete m (c + n)) (fun j hj => by
      rw [mapGet_delete_ne m (by omega : c + j ≠ c + n)]
      exact h j (by omega))
    omega

/-- Every buffer has a first gap at or after the cursor. -/
theorem exists_gap (m : GoMap Nat Message) (c : Nat) :
    ∃ k, (∀ j < k, (mapGet m (c + j)).isSome) ∧ mapGet m (c + k) = none := by
  by_contra hcon
  have hall : ∀ k, ∀ j < k, (mapGet m (c + j)).isSome := by
    intro k
    induction k with
    | zero => intro j hj; omega
    | succ n ih =>
      intro j hj
      by_cases hjn : j < n
      · exact ih j hjn
      · have hjeq : j = n := by omega
        subst hjeq
        by_contra hnot
        apply hcon
        refine ⟨j, ih, ?_⟩
        cases hg : mapGet m (c + j) with
        | none => rfl
        | some v => rw [hg] at hnot; simp at hnot
  have := le_mapLen_of_present (mapLen m + 1) m c (hall _)
  omega

/-- The loop of the drainer on a buffer whose keys `c, ..., c + k - 1` are present and
whose key `c + k` is absent, when the cursor does not wrap. -/
theorem drainLoop_run (k : Nat) (fuel : Nat) (b : MessageSequenceBuffer) (hk : k ≤ fuel)
    (hpresent : ∀ j < k, (mapGet b.buffer (b.current + j)).isSome)
    (hgap : mapGet b.buffer (b.current + k) = none)
    (hwrap : b.current + k < uint64Size) :
    (MessageSequenceBuffer.drainLoop fuel b).1.length = k ∧
      (∀ j < k, (MessageSequenceBuffer.drainLoop fuel b).1[j]?
        = mapGet b.buffer (b.current + j)) ∧
      (∀ key, mapGet (MessageSequenceBuffer.drainLoop fuel b).2.buffer key
        = if b.current ≤ key ∧ key < b.current + k then none else mapGet b.buffer key) ∧
      mapLen (MessageSequenceBuffer.drainLoop fuel b).2.buffer + k = mapLen b.buffer ∧
      (MessageSequenceBuffer.drainLoop fuel b).2.current = b.current + k := by
  induction k generalizing fuel b with
  | zero =>
    rw [drainLoop_of_none fuel b (by simpa using hgap)]
    refine ⟨rfl, fun j hj => by omega, fun key => ?_, rfl, rfl⟩
    rw [if_neg (by omega)]
  | succ n ih =>
    obtain ⟨f, rfl⟩ : ∃ f, fuel = f + 1 := ⟨fuel - 1, by omega⟩
    obtain ⟨v, hv⟩ := Option.isSome_iff_exists.1 (hpresent 0 (by omega))
    rw [Nat.add_zero] at hv
    rw [drainLoop_succ_of_get f b v hv]
    have hmod : (b.current + 1) % uint64Size = b.current + 1 := Nat.mod_eq_of_lt (by omega)
    rw [hmod]
    have hlen := mapLen_delete_of_get b.buffer b.current v hv
    obtain ⟨i1, i2, i3, i4, i5⟩ := ih f
      { current := b.current + 1, buffer := mapDelete b.buffer b.current } (by omega)
      (fun j hj => by
        show (mapGet (mapDelete b.buffer b.current) (b.current + 1 + j)).isSome = true
        rw [mapGet_delete_ne b.buffer (by omega : b.current + 1 + j ≠ b.current)]
        have := hpresent (j + 1) (by omega)
        rwa [show b.current + (j + 1) = b.current + 1 + j by omega] at this)
      (by
        show mapGet (mapDelete b.buffer b.current) (b.current + 1 + n) = none
        rw [mapGet_delete_ne b.buffer (by omega : b.current + 1 + n ≠ b.current)]
        rwa [show b.current + (n + 1) = b.current + 1 + n by omega] at hgap)
      (by show b.current + 1 + n < uint64Size; omega)
    simp only at i1 i2 i3 i4 i5
    refine ⟨by simp [i1], ?_, ?_, ?_, ?_⟩
    rotate_left 2
    · show mapLen (MessageSequenceBuffer.drainLoop f
          { current := b.current + 1, buffer := mapDelete b.buffer b.current }).2.buffer
        + (n + 1) = mapLen b.buffer
      omega
    · show (MessageSequenceBuffer.drainLoop f
          { current := b.current + 1, buffer := mapDelete b.buffer b.current }).2.current
        = b.current + (n + 1)
      omega
    · intro j hj
      cases j with
      | zero => simp [hv]
      | succ j =>
        rw [List.getElem?_cons_succ, i2 j (by omega),
          mapGet_delete_ne b.buffer (by omega : b.current + 1 + j ≠ b.current)]
        congr 1; omega
    · intro key
      rw [i3 key]
      by_cases h1 : key = b.current
      · subst h1
        rw [mapGet_delete_self]
        simp
      · rw [mapGet_delete_ne b.buffer h1]
        by_cases h2 : b.current + 1 ≤ key ∧ key < b.current + 1 + n
        · rw [if_pos h2, if_pos (by omega)]
        · rw [if_neg h2, if_neg (by omega)]
theorem drainerTick_of_ne_zero (b : MessageSequenceBuffer) (hc : b.current ≠ 0) :
    b.drainerTick = MessageSequenceBuffer.drainLoop (mapLen b.buffer) b := by
  unfold MessageSequenceBuffer.drainerTick
  rw [if_neg hc]

theorem drainerTick_of_zero (b : MessageSequenceBuffer) (hc : b.current = 0) :
    b.drainerTick = ([], b) := by
  unfold MessageSequenceBuffer.drainerTick
  rw [if_pos hc]

/-- C6 (amended). In the Active state (cursor `c` not zero) let `k` be the number of
consecutive keys `c, c + 1, ...` present in the buffer, so that `c + k` is the first
gap. If `c + k` is still a `uint64`, one uninterrupted drainer tick emits exactly
the messages stored at `c, ..., c + k - 1` in that order, removes those `k` entries
and no others, leaves the cursor at `c + k`, and a further tick emits nothing; after
`Add(c + k, m)` the next tick emits `m` first. -/
theorem drainerTick_emits_contiguous_run (b : MessageSequenceBuffer)
    (hc : b.current ≠ 0) :
    ∃ k, (∀ j < k, (mapGet b.buffer (b.current + j)).isSome) ∧
      mapGet b.buffer (b.current + k) = none ∧
      (b.current + k < uint64Size →
        (b.drainerTick).1.length = k ∧
        (∀ j < k, (b.drainerTick).1[j]? = mapGet b.buffer (b.current + j)) ∧
        (∀ key, mapGet (b.drainerTick).2.buffer key
          = if b.current ≤ key ∧ key < b.current + k then none else mapGet b.buffer key) ∧
        mapLen (b.drainerTick).2.buffer + k = mapLen b.buffer ∧
        (b.drainerTick).2.current = b.current + k ∧
        ((b.drainerTick).2.drainerTick).1 = [] ∧
        ∀ m, ((b.drainerTick).2.Add (b.current + k) m).1 = none ∧
          ∃ rest, (((b.drainerTick).2.Add (b.current + k) m).2.drainerTick).1 = m :: rest) := by
  obtain ⟨k, hpresent, hgap⟩ := exists_gap b.buffer b.current
  refine ⟨k, hpresent, hgap, fun hwrap => ?_⟩
  have hk : k ≤ mapLen b.buffer := le_mapLen_of_present k b.buffer b.current hpresent
  have htick := drainerTick_of_ne_zero b hc
  obtain ⟨h1, h2, h3, h4, h5⟩ := drainLoop_run k (mapLen b.buffer) b hk hpresent hgap hwrap
  rw [← htick] at h1 h2 h3 h4 h5
  have hgap2 : mapGet (b.drainerTick).2.buffer (b.drainerTick).2.current = none := by
    rw [h3, h5, if_neg (by omega)]
    exact hgap
  have hc2 : (b.drainerTick).2.current ≠ 0 := by omega
  refine ⟨h1, h2, h3, h4, h5, ?_, fun m => ?_⟩
  · rw [drainerTick_of_ne_zero _ hc2, drainLoop_of_none _ _ hgap2]
  · have hle : (b.drainerTick).2.current ≤ b.current + k := by omega
    refine ⟨by rw [Add_of_le _ _ m hle], ?_⟩
    apply drainerTick_head
    · rw [Add_current]; exact hc2
    · rw [Add_current, h5]
      have := mapGet_Add_self (b.drainerTick).2 (b.current + k) m hle
      exact this

/-- Witness for C6: with keys 1, 2 and 4 and cursor 1 a tick emits "1" and "2" and
stops at the gap 3; after `Add(3, _)` the next tick emits "3" and "4". -/
theorem drainerTick_emits_contiguous_run_witness :
    MessageSequenceBuffer.scenarioGap.current ≠ 0 ∧
      (∃ k, (∀ j < k, (mapGet MessageSequenceBuffer.scenarioGap.buffer
            (MessageSequenceBuffer.scenarioGap.current + j)).isSome) ∧
          mapGet MessageSequenceBuffer.scenarioGap.buffer
            (MessageSequenceBuffer.scenarioGap.current + k) = none ∧
          (MessageSequenceBuffer.scenarioGap.current + k < uint64Size →
            (MessageSequenceBuffer.scenarioGap.drainerTick).1.length = k)) ∧
      (MessageSequenceBuffer.scenarioGap.drainerTick).1
        = [Message.lit 1 "1", Message.lit 2 "2"] ∧
      (MessageSequenceBuffer.scenarioGap.drainerTick).2.current = 3 ∧
      (((MessageSequenceBuffer.scenarioGap.drainerTick).2.Add 3
          (Message.lit 3 "3")).2.drainerTick).1
        = [Message.lit 3 "3", Message.lit 4 "4"] :=
  have h := drainerTick_emits_contiguous_run MessageSequenceBuffer.scenarioGap (by decide)
  ⟨by decide,
    h.imp (fun _ hk => ⟨hk.1, hk.2.1, fun hw => (hk.2.2 hw).1⟩),
    by decide, by decide, by decide⟩

/-- Counterexample to C6 as stated: with cursor `2 ^ 64 - 1` and a message stored
there, one tick emits that message (`k = 1`) but the cursor becomes 0, not
`2 ^ 64`; the buffer is then no longer Active, so after a successful `Add(0, _)`
a later tick emits nothing. -/
theorem drainerTick_wraps_at_last :
    MessageSequenceBuffer.scenarioLast.current = 18446744073709551615 ∧
      (MessageSequenceBuffer.scenarioLast.drainerTick).1 = [Message.lit 1 "last"] ∧
      (MessageSequenceBuffer.scenarioLast.drainerTick).2.current = 0 ∧
      (MessageSequenceBuffer.scenarioLast.drainerTick).2.current
        ≠ MessageSequenceBuffer.scenarioLast.current + 1 ∧
      ((MessageSequenceBuffer.scenarioLast.drainerTick).2.Add 0 (Message.lit 2 "next")).1
        = none ∧
      (((MessageSequenceBuffer.scenarioLast.drainerTick).2.Add 0
          (Message.lit 2 "next")).2.drainerTick).1 = [] := by
  refine ⟨by decide, by decide, by decide, by decide, by decide, by decide⟩

/-! ## Schedules of `Consume` -/

theorem run_append (s : ConsumeState) (l1 l2 : List Event) :
    run s (l1 ++ l2) = run (run s l1) l2 := by
  simp [run, List.foldl_append]

theorem run_snoc (s : ConsumeState) (l : List Event) (e : Event) :
    run s (l ++ [e]) = step (run s l) e := by
  simp [run, List.foldl_append]

/-- A step either leaves the channel alone, or is an iteration of the drainer loop
that sends the message stored at the cursor. -/
theorem step_sent (s : ConsumeState) (e : Event) :
    (step s e).sent = s.sent ∨
      (e = Event.drainIter ∧ ∃ v, mapGet s.b.buffer s.b.current = some v ∧
        (step s e).sent = s.sent ++ [(s.b.current, v)] ∧
        (step s e).b.current = (s.b.current + 1) % uint64Size) := by
  cases e with
  | add i val => exact Or.inl rfl
  | initTick order =>
    left
    simp only [step]
    split <;> rfl
  | drainTick =>
    left
    simp only [step]
    split
    · rfl
    · split <;> rfl
  | drainIter =>
    simp only [step]
    by_cases hd : s.draining = true
    · rw [if_pos hd]
      by_cases hl : mapLen s.b.buffer > 0
      · rw [if_pos hl]
        cases hg : mapGet s.b.buffer s.b.current with
        | none =>
          rw [pop_of_none _ hg]
          exact Or.inl rfl
        | some v =>
          rw [pop_of_get _ v hg]
          exact Or.inr ⟨trivial, v, rfl, rfl, rfl⟩
      · rw [if_neg hl]
        exact Or.inl rfl
    · rw [if_neg hd]
      exact Or.inl rfl

/-- Once the initializer has returned, only a sending step moves the cursor. -/
theorem step_current (s : ConsumeState) (e : Event) (hinit : s.initRunning = false) :
    (step s e).initRunning = false ∧
      ((step s e).sent = s.sent → (step s e).b.current = s.b.current) := by
  cases e with
  | add i val => exact ⟨hinit, fun _ => Add_current _ _ _⟩
  | initTick order =>
    simp [step, hinit]
  | drainTick =>
    simp only [step]
    split
    · exact ⟨hinit, fun _ => rfl⟩
    · split
      · exact ⟨hinit, fun _ => rfl⟩
      · exact ⟨hinit, fun _ => rfl⟩
  | drainIter =>
    simp only [step]
    by_cases hd : s.draining = true
    · rw [if_pos hd]
      by_cases hl : mapLen s.b.buffer > 0
      · rw [if_pos hl]
        cases hg : mapGet s.b.buffer s.b.current with
        | none =>
          rw [pop_of_none _ hg]
          exact ⟨hinit, fun _ => rfl⟩
        | some v =>
          rw [pop_of_get _ v hg]
          refine ⟨hinit, fun h => ?_⟩
          simp at h
      · rw [if_neg hl]
        exact ⟨hinit, fun _ => rfl⟩
    · rw [if_neg hd]
      exact ⟨hinit, fun _ => rfl⟩

theorem run_labels (s : ConsumeState) (evs : List Event) (hinit : s.initRunning = false)
    (hsent : s.sent = []) (hlt : s.b.current < uint64Size) :
    (run s evs).initRunning = false ∧
      (run s evs).sent.map Prod.fst
        = (List.range (run s evs).sent.length).map (fun k => (s.b.current + k) % uint64Size) ∧
      (run s evs).b.current = (s.b.current + (run s evs).sent.length) % uint64Size := by
  induction evs using List.reverseRecOn with
  | nil =>
    simp [run, hsent, hinit, Nat.mod_eq_of_lt hlt]
  | append_singleton l e ih =>
    obtain ⟨i1, i2, i3⟩ := ih
    rw [run_snoc]
    obtain ⟨c1, c2⟩ := step_current (run s l) e i1
    rcases step_sent (run s l) e with h | ⟨-, v, -, h, hcur⟩
    · rw [h, c2 h]
      exact ⟨c1, i2, i3⟩
    · refine ⟨c1, ?_, ?_⟩
      · rw [h, List.map_append, i2, List.length_append, List.length_singleton,
          List.range_succ, List.map_append, i3]
        rfl
      · rw [hcur, h, List.length_append, List.length_singleton, i3, Nat.mod_add_mod]
        rfl

theorem run_sent_source (s : ConsumeState) (evs : List Event) (hsent : s.sent = [])
    (j l : Nat) (m : Message) (h : (run s evs).sent[j]? = some (l, m)) :
    ∃ pre post, evs = pre ++ Event.drainIter :: post ∧ (run s pre).sent.length = j ∧
      (run s pre).b.current = l ∧ mapGet (run s pre).b.buffer l = some m := by
  induction evs using List.reverseRecOn with
  | nil =>
    simp [run, hsent] at h
  | append_singleton evs e ih =>
    rw [run_snoc] at h
    rcases step_sent (run s evs) e with hs | ⟨he, v, hv, hs, -⟩
    · rw [hs] at h
      obtain ⟨pre, post, hevs, h1, h2, h3⟩ := ih h
      exact ⟨pre, post ++ [e], by rw [hevs]; simp, h1, h2, h3⟩
    · rw [hs] at h
      by_cases hj : j < (run s evs).sent.length
      · rw [List.getElem?_append_left hj] at h
        obtain ⟨pre, post, hevs, h1, h2, h3⟩ := ih h
        exact ⟨pre, post ++ [e], by rw [hevs]; simp, h1, h2, h3⟩
      · have hj2 : j = (run s evs).sent.length := by
          by_contra hne
          have hgt : (run s evs).sent.length + 1 ≤ j := by omega
          have : ((run s evs).sent ++ [((run s evs).b.current, v)])[j]? = none := by
            rw [List.getElem?_eq_none_iff]
            simp
            omega
          rw [this] at h
          cases h
        subst hj2
        rw [List.getElem?_append_right (le_refl _)] at h
        simp at h
        obtain ⟨h1, h2⟩ := h
        subst h1 h2 he
        exact ⟨evs, [], rfl, rfl, rfl, hv⟩
/-- C1 (amended). Once the initializer has returned with the cursor at `c0`, for every
schedule of `Add` calls, drainer ticks and drainer loop iterations the sequence
numbers of the messages sent on the channel are `c0, c0 + 1, c0 + 2, ...` taken
modulo `2 ^ 64` (the cursor is a `uint64`); as long as the cursor does not wrap they
increase by exactly one each time, without a gap or a repetition. The cursor ends
right after the last number sent, and every message sent is the one the buffer held
under its sequence number at the moment it was sent. -/
theorem consume_emits_in_cursor_order (s : ConsumeState) (evs : List Event)
    (hinit : s.initRunning = false) (hsent : s.sent = [])
    (hlt : s.b.current < uint64Size) :
    (run s evs).sent.map Prod.fst
        = (List.range (run s evs).sent.length).map
            (fun k => (s.b.current + k) % uint64Size) ∧
      (s.b.current + (run s evs).sent.length ≤ uint64Size →
        (run s evs).sent.map Prod.fst
          = (List.range (run s evs).sent.length).map (fun k => s.b.current + k)) ∧
      (run s evs).b.current = (s.b.current + (run s evs).sent.length) % uint64Size ∧
      ∀ j l m, (run s evs).sent[j]? = some (l, m) →
        ∃ pre post, evs = pre ++ Event.drainIter :: post ∧
          (run s pre).sent.length = j ∧ (run s pre).b.current = l ∧
          mapGet (run s pre).b.buffer l = some m := by
  obtain ⟨-, h2, h3⟩ := run_labels s evs hinit hsent hlt
  refine ⟨h2, fun hle => ?_, h3, fun j l m h => run_sent_source s evs hsent j l m h⟩
  rw [h2]
  apply List.map_congr_left
  intro k hk
  have := List.mem_range.1 hk
  exact Nat.mod_eq_of_lt (by omega)

/-- Witness for C1: keys 1, 2 and 4 with cursor 1; `Add(3, _)` arrives after the
first tick; the sequence numbers sent are 1, 2, 3, 4. -/
theorem consume_emits_in_cursor_order_witness :
    (ConsumeState.active MessageSequenceBuffer.scenarioGap).initRunning = false ∧
      (ConsumeState.active MessageSequenceBuffer.scenarioGap).sent = [] ∧
      (ConsumeState.active MessageSequenceBuffer.scenarioGap).b.current < uint64Size ∧
      (run (ConsumeState.active MessageSequenceBuffer.scenarioGap) scheduleGap).sent.map
          Prod.fst = [1, 2, 3, 4] ∧
      (run (ConsumeState.active MessageSequenceBuffer.scenarioGap) scheduleGap).channel
        = [Message.lit 1 "1", Message.lit 2 "2", Message.lit 3 "3", Message.lit 4 "4"] ∧
      (run (ConsumeState.active MessageSequenceBuffer.scenarioGap) scheduleGap).b.current
        = ((ConsumeState.active MessageSequenceBuffer.scenarioGap).b.current +
            (run (ConsumeState.active MessageSequenceBuffer.scenarioGap)
              scheduleGap).sent.length) % uint64Size :=
  have h := consume_emits_in_cursor_order
    (ConsumeState.active MessageSequenceBuffer.scenarioGap) scheduleGap rfl rfl (by decide)
  ⟨rfl, rfl, by decide, by decide, by decide, h.2.2.1⟩

/-- Counterexample to C1 as stated: after `Add(0, _)` and `Add(2 ^ 64 - 1, _)` the
initializer can establish the cursor at `2 ^ 64 - 1` (when `range` yields 0 first)
and return; the next tick then sends the message stored at `2 ^ 64 - 1` followed by
the one stored at 0, so the sequence numbers sent do not increase. -/
theorem consume_wraps_to_zero :
    [0, 18446744073709551615].Perm
        (mapKeys (run (ConsumeState.start MessageSequenceBuffer.zero)
          (scheduleWrapInit.take 2)).b.buffer) ∧
      (run (ConsumeState.start MessageSequenceBuffer.zero) scheduleWrapInit).initRunning
        = false ∧
      (run (ConsumeState.start MessageSequenceBuffer.zero) scheduleWrapInit).b.current
        = 18446744073709551615 ∧
      (run (ConsumeState.start MessageSequenceBuffer.zero) scheduleWrapInit).sent = [] ∧
      (run (run (ConsumeState.start MessageSequenceBuffer.zero) scheduleWrapInit)
          [.drainTick, .drainIter, .drainIter]).sent.map Prod.fst
        = [18446744073709551615, 0] ∧
      (run (run (ConsumeState.start MessageSequenceBuffer.zero) scheduleWrapInit)
          [.drainTick, .drainIter, .drainIter]).channel
        = [Message.lit 1 "last", Message.lit 0 "zero"] := by
  refine ⟨by decide, by decide, by decide, by decide, by decide, by decide⟩

theorem step_sent_length_le (s : ConsumeState) (e : Event) :
    s.sent.length ≤ (step s e).sent.length := by
  rcases step_sent s e with h | ⟨-, v, -, h, -⟩
  · rw [h]
  · rw [h, List.length_append]; omega

theorem run_sent_length_le (s : ConsumeState) (evs : List Event) :
    s.sent.length ≤ (run s evs).sent.length := by
  induction evs generalizing s with
  | nil => exact le_refl _
  | cons e rest ih => exact le_trans (step_sent_length_le s e) (ih (step s e))

/-- Once the initializer has returned, a step that is not an `Add` and sends nothing
leaves the buffer as it was. -/
theorem step_b_of_sent_eq (s : ConsumeState) (e : Event) (hinit : s.initRunning = false)
    (he : e.isAdd = false) (h : (step s e).sent = s.sent) : (step s e).b = s.b := by
  cases e with
  | add i val => simp [Event.isAdd] at he
  | initTick order => simp [step, hinit]
  | drainTick =>
    by_cases hd : s.draining = true
    · simp [step, hd]
    · by_cases hc : s.b.current = 0 <;> simp [step, hd, hc]
  | drainIter =>
    by_cases hd : s.draining = true
    · by_cases hl : mapLen s.b.buffer > 0
      · cases hg : mapGet s.b.buffer s.b.current with
        | none => simp [step, hd, hl, pop_of_none _ hg]
        | some v =>
          exfalso
          simp [step, hd, hl, pop_of_get _ v hg] at h
      · simp [step, hd, hl]
    · simp [step, hd]

theorem run_b_of_sent_length_eq (s : ConsumeState) (evs : List Event)
    (hinit : s.initRunning = false) (hno : ∀ e ∈ evs, e.isAdd = false)
    (h : (run s evs).sent.length = s.sent.length) : (run s evs).b = s.b := by
  induction evs generalizing s with
  | nil => rfl
  | cons e rest ih =>
    have h1 := step_sent_length_le s e
    have h2 := run_sent_length_le (step s e) rest
    have h3 : (run (step s e) rest).sent.length = s.sent.length := h
    have hs : (step s e).sent = s.sent := by
      rcases step_sent s e with hs | ⟨-, v, -, hs, -⟩
      · exact hs
      · rw [hs, List.length_append] at h2
        simp at h2
        omega
    have hb := step_b_of_sent_eq s e hinit (hno e (List.mem_cons_self _ _)) hs
    have hi := (step_current s e hinit).1
    have := ih (step s e) hi (fun e2 h => hno e2 (List.mem_cons_of_mem _ h))
      (by rw [h3, hs])
    exact this.trans hb

/-- After the initializer has returned, and as long as no `Add` is made, the first
message sent (if any) is the one stored at the cursor. -/
theorem first_sent_of_no_add (s : ConsumeState) (evs : List Event)
    (hinit : s.initRunning = false) (hsent : s.sent = [])
    (hno : ∀ e ∈ evs, e.isAdd = false) (m0 : Message)
    (h : (run s evs).channel.head? = some m0) :
    mapGet s.b.buffer s.b.current = some m0 := by
  have h0 : ∃ l, (run s evs).sent[0]? = some (l, m0) := by
    unfold ConsumeState.channel at h
    cases hs : (run s evs).sent with
    | nil => rw [hs] at h; simp at h
    | cons p rest =>
      rw [hs] at h
      simp at h
      exact ⟨p.1, by simp [← h]⟩
  obtain ⟨l, hl⟩ := h0
  obtain ⟨pre, post, hevs, p1, p2, p3⟩ := run_sent_source s evs hsent 0 l m0 hl
  have hno2 : ∀ e ∈ pre, e.isAdd = false := by
    intro e he
    exact hno e (by rw [hevs]; exact List.mem_append_left _ he)
  have hb := run_b_of_sent_length_eq s pre hinit hno2 (by rw [p1, hsent]; rfl)
  rw [hb] at p2 p3
  rw [p2]
  exact p3

/-! ## The cursor chosen by the initializer -/

/-- Where `init` does find the lowest sequence number: for every non-empty series of
`Add` calls on a fresh buffer, none with sequence number zero, and for every order in
which `range` may visit the keys, `init` sets the cursor to the least sequence number
added; the message stored there is the
latest one added under that number, it is the first message a drainer tick emits, it
is the message on the channel after an initializer tick, a drainer tick and one
iteration of the drainer loop, and in every schedule that starts with the initializer
tick and has no further `Add` the first message on the channel, if any, is that one. -/
theorem init_picks_least_added (adds : List (Nat × Message)) (order : List Nat)
    (hne : adds ≠ []) (h0 : ∀ a ∈ adds, a.1 ≠ 0)
    (hperm : order.Perm (mapKeys (MessageSequenceBuffer.zero.addAll adds).buffer)) :
    ((MessageSequenceBuffer.zero.addAll adds).init order).current ∈ adds.map Prod.fst ∧
      (∀ a ∈ adds, ((MessageSequenceBuffer.zero.addAll adds).init order).current ≤ a.1) ∧
      ∃ v,
        adds.reverse.find? (fun a => decide
            (a.1 = ((MessageSequenceBuffer.zero.addAll adds).init order).current))
          = some (((MessageSequenceBuffer.zero.addAll adds).init order).current, v) ∧
        mapGet ((MessageSequenceBuffer.zero.addAll adds).init order).buffer
            ((MessageSequenceBuffer.zero.addAll adds).init order).current = some v ∧
        (∃ rest, (((MessageSequenceBuffer.zero.addAll adds).init order).drainerTick).1
            = v :: rest) ∧
        (run (ConsumeState.start (MessageSequenceBuffer.zero.addAll adds))
            [.initTick order, .drainTick, .drainIter]).channel = [v] ∧
        ∀ evs : List Event, (∀ e ∈ evs, e.isAdd = false) → ∀ m0,
          (run (ConsumeState.start (MessageSequenceBuffer.zero.addAll adds))
              (.initTick order :: evs)).channel.head? = some m0 → m0 = v := by
  obtain ⟨a0, ha0⟩ := List.exists_mem_of_ne_nil adds hne
  have hmem0 : a0.1 ∈ mapKeys (MessageSequenceBuffer.zero.addAll adds).buffer :=
    (mem_mapKeys_addAll_zero adds a0.1).2 (List.mem_map.2 ⟨a0, ha0, rfl⟩)
  have hlen : 0 < mapLen (MessageSequenceBuffer.zero.addAll adds).buffer := by
    rw [mapLen_eq_length_keys]; exact List.length_pos_of_mem hmem0
  have hz : 0 ∉ mapKeys (MessageSequenceBuffer.zero.addAll adds).buffer := by
    intro hmem
    obtain ⟨a, ha, ha1⟩ := List.mem_map.1 ((mem_mapKeys_addAll_zero adds 0).1 hmem)
    exact h0 a ha ha1
  obtain ⟨hbuf, hcur, hle⟩ := init_current_least _ order hlen hz hperm
  have hcur2 := (mem_mapKeys_addAll_zero adds _).1 hcur
  have hcne : ((MessageSequenceBuffer.zero.addAll adds).init order).current ≠ 0 :=
    fun hc => hz (hc ▸ hcur)
  obtain ⟨v, hv, -⟩ := find_reverse_of_mem_keys adds _ hcur2
  have hget : mapGet ((MessageSequenceBuffer.zero.addAll adds).init order).buffer
      ((MessageSequenceBuffer.zero.addAll adds).init order).current = some v := by
    rw [hbuf, mapGet_addAll _ rfl, hv]
  refine ⟨hcur2, ?_, v, hv, hget, drainerTick_head _ v hcne hget, ?_, ?_⟩
  · intro a ha
    exact hle a.1 ((mem_mapKeys_addAll_zero adds a.1).2 (List.mem_map.2 ⟨a, ha, rfl⟩))
  · rw [ConsumeState.channel, run_init_then_drain _ order v hcne hget]
    rfl
  · intro evs hno m0 hm0
    have hstep : step (ConsumeState.start (MessageSequenceBuffer.zero.addAll adds))
        (Event.initTick order)
        = ConsumeState.active ((MessageSequenceBuffer.zero.addAll adds).init order) := by
      simp [step, ConsumeState.start, ConsumeState.active, hcne]
    have hrun : run (ConsumeState.start (MessageSequenceBuffer.zero.addAll adds))
        (Event.initTick order :: evs)
        = run (ConsumeState.active ((MessageSequenceBuffer.zero.addAll adds).init order))
            evs := by
      rw [← hstep]; rfl
    rw [hrun] at hm0
    have := first_sent_of_no_add _ evs rfl rfl hno m0 hm0
    rw [show (ConsumeState.active ((MessageSequenceBuffer.zero.addAll adds).init order)).b
      = (MessageSequenceBuffer.zero.addAll adds).init order from rfl, hget] at this
    exact (Option.some.inj this).symm

/-- C4 (the code at the failing input). After `Add(0, _)` and `Add(5, _)` the lowest
sequence number in the buffer is 0. When `range` yields the key 0 before the key 5,
`init` sets the cursor to 5 and the drainer emits the message added under 5, never the
one added under 0; when `range` yields 5 first, `init` leaves the cursor at 0, which
`Consume` reads as not initialised, so the initializer keeps running and nothing is
emitted. -/
theorem init_not_least_with_zero_key :
    [0, 5].Perm
        (mapKeys
          (MessageSequenceBuffer.zero.addAll MessageSequenceBuffer.scenarioZeroKey).buffer) ∧
      0 ∈ mapKeys
          (MessageSequenceBuffer.zero.addAll MessageSequenceBuffer.scenarioZeroKey).buffer ∧
      ((MessageSequenceBuffer.zero.addAll MessageSequenceBuffer.scenarioZeroKey).init
        [0, 5]).current = 5 ∧
      (run (ConsumeState.start
            (MessageSequenceBuffer.zero.addAll MessageSequenceBuffer.scenarioZeroKey))
          [.initTick [0, 5], .drainTick, .drainIter, .drainIter]).channel
        = [Message.lit 5 "five"] ∧
      ((MessageSequenceBuffer.zero.addAll MessageSequenceBuffer.scenarioZeroKey).init
        [5, 0]).current = 0 ∧
      (run (ConsumeState.start
            (MessageSequenceBuffer.zero.addAll MessageSequenceBuffer.scenarioZeroKey))
          [.initTick [5, 0], .drainTick, .drainIter, .drainIter]).initRunning = true ∧
      (run (ConsumeState.start
            (MessageSequenceBuffer.zero.addAll MessageSequenceBuffer.scenarioZeroKey))
          [.initTick [5, 0], .drainTick, .drainIter, .drainIter]).channel = [] := by
  refine ⟨by decide, by decide, by decide, by decide, by decide, by decide, by decide⟩

/-- The test scenario, `Add` at 100, 1000 and 10: the cursor becomes 10 and the first
message emitted is "just right". -/
theorem init_picks_least_added_witness :
    MessageSequenceBuffer.scenarioLowestId ≠ [] ∧
      (∀ a ∈ MessageSequenceBuffer.scenarioLowestId, a.1 ≠ 0) ∧
      [100, 1000, 10].Perm
        (mapKeys
          (MessageSequenceBuffer.zero.addAll MessageSequenceBuffer.scenarioLowestId).buffer) ∧
      ((MessageSequenceBuffer.zero.addAll MessageSequenceBuffer.scenarioLowestId).init
        [100, 1000, 10]).current = 10 ∧
      (∀ a ∈ MessageSequenceBuffer.scenarioLowestId,
        ((MessageSequenceBuffer.zero.addAll MessageSequenceBuffer.scenarioLowestId).init
          [100, 1000, 10]).current ≤ a.1) ∧
      (run (ConsumeState.start
            (MessageSequenceBuffer.zero.addAll MessageSequenceBuffer.scenarioLowestId))
          [.initTick [100, 1000, 10], .drainTick, .drainIter]).channel
        = [Message.lit 2 "just right"] :=
  have h := init_picks_least_added MessageSequenceBuffer.scenarioLowestId [100, 1000, 10]
    (by decide) (by decide) (by decide)
  ⟨by decide, by decide, by decide, by decide, h.2.1, by decide⟩

/-! ## The initializer -/

theorem init_of_empty (b : MessageSequenceBuffer) (order : List Nat)
    (hempty : mapLen b.buffer = 0) : b.init order = b := by
  unfold MessageSequenceBuffer.init
  rw [if_pos (Or.inr hempty)]

/-- While the cursor is zero and the buffer is empty, a step that is not an `Add`
changes neither the buffer nor the channel, and the initializer keeps running. -/
theorem step_empty_no_add (s : ConsumeState) (e : Event) (hcur : s.b.current = 0)
    (hempty : mapLen s.b.buffer = 0) (hrun : s.initRunning = true)
    (he : e.isAdd = false) :
    (step s e).b = s.b ∧ (step s e).initRunning = true ∧ (step s e).sent = s.sent ∧
      (s.draining = false → (step s e).draining = false) := by
  cases e with
  | add i val => simp [Event.isAdd] at he
  | initTick order =>
    simp [step, hrun, init_of_empty s.b order hempty, hcur]
  | drainTick =>
    by_cases hd : s.draining = true <;> simp [step, hd, hcur, hrun]
  | drainIter =>
    simp only [step]
    split
    · rw [if_neg (by omega)]
      exact ⟨rfl, hrun, rfl, fun _ => rfl⟩
    · exact ⟨rfl, hrun, rfl, fun h => h⟩

theorem run_empty_no_add (s : ConsumeState) (evs : List Event) (hcur : s.b.current = 0)
    (hempty : mapLen s.b.buffer = 0) (hrun : s.initRunning = true)
    (hno : ∀ e ∈ evs, e.isAdd = false) :
    (run s evs).b = s.b ∧ (run s evs).initRunning = true ∧ (run s evs).sent = s.sent ∧
      (s.draining = false → (run s evs).draining = false) := by
  induction evs generalizing s with
  | nil => exact ⟨rfl, hrun, rfl, fun h => h⟩
  | cons e rest ih =>
    obtain ⟨h1, h2, h3, h4⟩ := step_empty_no_add s e hcur hempty hrun
      (hno e (List.mem_cons_self _ _))
    obtain ⟨i1, i2, i3, i4⟩ := ih (step s e) (by rw [h1]; exact hcur) (by rw [h1]; exact hempty)
      h2 (fun e2 h => hno e2 (List.mem_cons_of_mem _ h))
    show (run (step s e) rest).b = s.b ∧ (run (step s e) rest).initRunning = true ∧
      (run (step s e) rest).sent = s.sent ∧
      (s.draining = false → (run (step s e) rest).draining = false)
    exact ⟨i1.trans h1, i2, i3.trans h3, fun h => i4 (h4 h)⟩

/-- C9 (amended). If the buffer is empty (and the cursor unset) while the initializer
is running, then for every later schedule of initializer ticks, drainer ticks and
drainer loop iterations in which no `Add` occurs the buffer stays Uninitialized: the
cursor stays 0, the buffer is unchanged, nothing is sent, and the initializer has
not returned, so it runs `init` again on its next tick. -/
theorem uninitialized_while_no_add (s : ConsumeState) (evs : List Event)
    (hcur : s.b.current = 0) (hempty : mapLen s.b.buffer = 0)
    (hrun : s.initRunning = true) (hsent : s.sent = [])
    (hno : ∀ e ∈ evs, e.isAdd = false) :
    (run s evs).b.current = 0 ∧ (run s evs).b = s.b ∧ (run s evs).sent = [] ∧
      (run s evs).channel = [] ∧ (run s evs).initRunning = true := by
  obtain ⟨h1, h2, h3, -⟩ := run_empty_no_add s evs hcur hempty hrun hno
  refine ⟨by rw [h1]; exact hcur, h1, by rw [h3]; exact hsent, ?_, h2⟩
  rw [ConsumeState.channel, h3, hsent]
  rfl

/-- Witness for C9: a fresh buffer through three rounds of ticks without any `Add`. -/
theorem uninitialized_while_no_add_witness :
    (ConsumeState.start MessageSequenceBuffer.zero).b.current = 0 ∧
      mapLen (ConsumeState.start MessageSequenceBuffer.zero).b.buffer = 0 ∧
      (ConsumeState.start MessageSequenceBuffer.zero).initRunning = true ∧
      (ConsumeState.start MessageSequenceBuffer.zero).sent = [] ∧
      (∀ e ∈ [Event.initTick [], Event.drainTick, Event.drainIter, Event.initTick [],
          Event.drainTick, Event.initTick []], e.isAdd = false) ∧
      (run (ConsumeState.start MessageSequenceBuffer.zero)
          [Event.initTick [], Event.drainTick, Event.drainIter, Event.initTick [],
            Event.drainTick, Event.initTick []]).channel = [] ∧
      (run (ConsumeState.start MessageSequenceBuffer.zero)
          [Event.initTick [], Event.drainTick, Event.drainIter, Event.initTick [],
            Event.drainTick, Event.initTick []]).initRunning = true :=
  have hno : ∀ e ∈ [Event.initTick [], Event.drainTick, Event.drainIter, Event.initTick [],
      Event.drainTick, Event.initTick []], e.isAdd = false := by
    intro e he
    simp only [List.mem_cons, List.mem_singleton, List.not_mem_nil, or_false] at he
    rcases he with rfl | rfl | rfl | rfl | rfl | rfl <;> rfl
  have h := uninitialized_while_no_add (ConsumeState.start MessageSequenceBuffer.zero)
    [Event.initTick [], Event.drainTick, Event.drainIter, Event.initTick [],
      Event.drainTick, Event.initTick []] rfl rfl rfl rfl hno
  ⟨rfl, rfl, rfl, rfl, hno, h.2.2.2.1, h.2.2.2.2⟩

/-- Counterexample to C9 as stated: the first window elapses on the empty buffer
and leaves it Uninitialized with the initializer still running; after `Add(123, _)`
the next initializer tick establishes the cursor at 123 and returns, and the
drainer sends the message. -/
theorem initializer_retries_after_empty_window :
    (run (ConsumeState.start MessageSequenceBuffer.zero) (scheduleLateAdd.take 1)).b.current
        = 0 ∧
      (run (ConsumeState.start MessageSequenceBuffer.zero)
          (scheduleLateAdd.take 1)).initRunning = true ∧
      (run (ConsumeState.start MessageSequenceBuffer.zero) (scheduleLateAdd.take 3)).b.current
        = 123 ∧
      (run (ConsumeState.start MessageSequenceBuffer.zero)
          (scheduleLateAdd.take 3)).initRunning = false ∧
      (run (ConsumeState.start MessageSequenceBuffer.zero) scheduleLateAdd).channel
        = [Message.zero] := by
  refine ⟨by decide, by decide, by decide, by decide, by decide⟩
theorem mapLen_eq_zero {K V : Type} (m : GoMap K V) (h : mapLen m = 0) :
    m = none ∨ m = some ∅ := by
  cases m with
  | none => exact Or.inl rfl
  | some a =>
    right
    have hent : a.entries = [] := List.length_eq_zero.1 h
    exact congrArg some (AList.ext (by rw [hent]; rfl))

/-- The first `Add` on an empty buffer whose cursor is unset, followed by `init`:
the cursor becomes the sequence number added, unless that number is zero. -/
theorem init_after_first_add (b : MessageSequenceBuffer) (i : Nat) (m : Message)
    (hcur : b.current = 0) (hempty : mapLen b.buffer = 0) :
    ((b.Add i m).2.init [i]).current = i ∧
      ((b.Add i m).2.init [i]).buffer = some (AList.singleton i m) := by
  have hle : b.current ≤ i := by omega
  rw [Add_of_le b i m hle]
  rcases mapLen_eq_zero b.buffer hempty with hb | hb <;>
    simp [hb, MessageSequenceBuffer.init, mapLen, MessageSequenceBuffer.initStep]

/-- From a state with cursor unset, empty buffer, running initializer and idle
drainer: an `Add` under a sequence number other than zero, an initializer tick, a
drainer tick and one iteration of the drainer loop. -/
theorem run_first_message (st : ConsumeState) (i : Nat) (m : Message) (hi : i ≠ 0)
    (hcur : st.b.current = 0) (hempty : mapLen st.b.buffer = 0)
    (hrun : st.initRunning = true) (hdr : st.draining = false) (hsent : st.sent = []) :
    (run st [.add i m, .initTick [i]]).b.current = i ∧
      (run st [.add i m, .initTick [i]]).initRunning = false ∧
      (run st [.add i m, .initTick [i], .drainTick, .drainIter]).channel = [m] := by
  obtain ⟨k1, k2⟩ := init_after_first_add st.b i m hcur hempty
  have hget : mapGet ((st.b.Add i m).2.init [i]).buffer ((st.b.Add i m).2.init [i]).current
      = some m := by
    rw [k1, k2]
    simp only [mapGet]
    rw [← AList.insert_empty, AList.lookup_insert]
  have hpos := mapLen_pos_of_get _ _ _ hget
  refine ⟨?_, ?_, ?_⟩
  · simp [run, step, hrun, k1]
  · simp [run, step, hrun, k1, hi]
  · simp [run, step, hrun, hdr, hsent, k1, hi, hpos, pop_of_get _ m hget,
      ConsumeState.channel]

/-- C10 (amended). `Consume` keeps attempting initialisation for as long as the buffer
is empty: after the first window has elapsed on an empty buffer, and after any
further ticks without an `Add`, the initializer is still running with the cursor
unset; when a message with a sequence number `i` other than zero is then added, the
next initializer tick sets the cursor to `i` and returns, and the following drainer
tick sends that message on the channel. -/
theorem initializer_retries_until_first_message (b : MessageSequenceBuffer)
    (evs : List Event) (i : Nat) (m : Message) (hi : i ≠ 0) (hcur : b.current = 0)
    (hempty : mapLen b.buffer = 0) (hno : ∀ e ∈ evs, e.isAdd = false) :
    (run (ConsumeState.start b) (Event.initTick [] :: evs)).initRunning = true ∧
      (run (ConsumeState.start b) (Event.initTick [] :: evs)).b.current = 0 ∧
      (run (ConsumeState.start b)
          (Event.initTick [] :: evs ++ [.add i m, .initTick [i]])).b.current = i ∧
      (run (ConsumeState.start b)
          (Event.initTick [] :: evs ++ [.add i m, .initTick [i]])).initRunning = false ∧
      (run (ConsumeState.start b)
          (Event.initTick [] :: evs ++ [.add i m, .initTick [i], .drainTick,
            .drainIter])).channel = [m] := by
  have hno2 : ∀ e ∈ Event.initTick [] :: evs, e.isAdd = false := by
    intro e he
    rcases List.mem_cons.1 he with rfl | he
    · rfl
    · exact hno e he
  obtain ⟨h1, h2, h3, h4⟩ := run_empty_no_add (ConsumeState.start b)
    (Event.initTick [] :: evs) hcur hempty rfl hno2
  obtain ⟨r1, r2, r3⟩ := run_first_message (run (ConsumeState.start b)
    (Event.initTick [] :: evs)) i m hi (by rw [h1]; exact hcur) (by rw [h1]; exact hempty)
    h2 (h4 rfl) (by rw [h3]; rfl)
  refine ⟨h2, by rw [h1]; exact hcur, ?_, ?_, ?_⟩
  · rw [run_append]; exact r1
  · rw [run_append]; exact r2
  · rw [run_append]; exact r3

/-- Witness for C10: the schedule of the test, with `Add(123, Message{})` after the
first window. -/
theorem initializer_retries_until_first_message_witness :
    (123 : Nat) ≠ 0 ∧ MessageSequenceBuffer.zero.current = 0 ∧
      mapLen MessageSequenceBuffer.zero.buffer = 0 ∧
      (∀ e ∈ [Event.drainTick, Event.initTick []], e.isAdd = false) ∧
      (run (ConsumeState.start MessageSequenceBuffer.zero)
          (Event.initTick [] :: [Event.drainTick, Event.initTick []] ++
            [.add 123 Message.zero, .initTick [123]])).b.current = 123 ∧
      (run (ConsumeState.start MessageSequenceBuffer.zero)
          (Event.initTick [] :: [Event.drainTick, Event.initTick []] ++
            [.add 123 Message.zero, .initTick [123], .drainTick, .drainIter])).channel
        = [Message.zero] :=
  have hno : ∀ e ∈ [Event.drainTick, Event.initTick []], e.isAdd = false := by
    intro e he
    simp only [List.mem_cons, List.mem_singleton, List.not_mem_nil, or_false] at he
    rcases he with rfl | rfl <;> rfl
  have h := initializer_retries_until_first_message MessageSequenceBuffer.zero
    [Event.drainTick, Event.initTick []] 123 Message.zero (by decide) rfl rfl hno
  ⟨by decide, rfl, rfl, hno, h.2.2.1, h.2.2.2.2⟩

/-- Counterexample to C10 as stated: when the message added after the first window
has sequence number 0, later initializer ticks leave the cursor at 0, the
initializer never returns and no drainer tick sends the message. -/
theorem initializer_ignores_sequence_zero :
    (run (ConsumeState.start MessageSequenceBuffer.zero) scheduleLateAddZero).b.current = 0 ∧
      (run (ConsumeState.start MessageSequenceBuffer.zero) scheduleLateAddZero).initRunning
        = true ∧
      mapGet (run (ConsumeState.start MessageSequenceBuffer.zero)
          scheduleLateAddZero).b.buffer 0 = some (Message.lit 0 "zero") ∧
      (run (ConsumeState.start MessageSequenceBuffer.zero) scheduleLateAddZero).channel
        = [] := by
  refine ⟨by decide, by decide, by decide, by decide⟩

/-! ## `Drain` -/

theorem pendingAt_zero (d : DrainableStan) (sched : List DrainEvent) :
    d.pendingAt sched 0 = mapLen d.bucket := rfl

theorem pendingAt_cons_succ (d : DrainableStan) (e : DrainEvent) (rest : List DrainEvent)
    (k : Nat) : d.pendingAt (e :: rest) (k + 1) = (d.after [e]).pendingAt rest k := by
  cases e <;> rfl

theorem Drain_cons_of_undecided (d : DrainableStan) (e : DrainEvent)
    (rest : List DrainEvent) (h1 : e ≠ DrainEvent.timeout)
    (h2 : e = DrainEvent.poll → 0 < mapLen d.bucket) :
    d.Drain (e :: rest) = (d.after [e]).Drain rest := by
  cases e with
  | poll =>
    have := h2 rfl
    simp only [DrainableStan.Drain, DrainableStan.after]
    rw [if_neg (by omega)]
  | timeout => exact absurd rfl h1
  | track id => rfl
  | untrack id => rfl

/-- The outcome of `Drain` is fixed by the first event that is either the timer or a
tick of the ticker at which the pending set is empty. -/
theorem Drain_spec (d : DrainableStan) (sched : List DrainEvent) :
    (d.Drain sched = none ∧
        (∀ j : Nat, sched[j]? ≠ some DrainEvent.timeout) ∧
        (∀ j : Nat, sched[j]? = some DrainEvent.poll → 0 < d.pendingAt sched j)) ∨
      (∃ k, sched[k]? = some DrainEvent.poll ∧ d.pendingAt sched k = 0 ∧
        d.Drain sched = some none ∧
        (∀ j < k, sched[j]? ≠ some DrainEvent.timeout) ∧
        (∀ j < k, sched[j]? = some DrainEvent.poll → 0 < d.pendingAt sched j)) ∨
      (∃ k, sched[k]? = some DrainEvent.timeout ∧
        d.Drain sched = some (some (drainTimeoutText (d.pendingAt sched k))) ∧
        (∀ j < k, sched[j]? ≠ some DrainEvent.timeout) ∧
        (∀ j < k, sched[j]? = some DrainEvent.poll → 0 < d.pendingAt sched j)) := by
  induction sched generalizing d with
  | nil =>
    left
    exact ⟨rfl, fun (j : Nat) => by simp, fun (j : Nat) => by simp⟩
  | cons e rest ih =>
    by_cases ht : e = DrainEvent.timeout
    · subst ht
      right; right
      exact ⟨0, by simp, rfl, fun j hj => by omega, fun j hj => by omega⟩
    · by_cases hp : e = DrainEvent.poll ∧ mapLen d.bucket = 0
      · obtain ⟨rfl, h0⟩ := hp
        right; left
        refine ⟨0, by simp, h0, ?_, fun j hj => by omega, fun j hj => by omega⟩
        simp only [DrainableStan.Drain]
        rw [if_pos (by omega)]
      · have h2 : e = DrainEvent.poll → 0 < mapLen d.bucket := by
          intro he
          by_contra hc
          exact hp ⟨he, by omega⟩
        rw [Drain_cons_of_undecided d e rest ht h2]
        have hshift1 : ∀ k, (∀ j < k, rest[j]? ≠ some DrainEvent.timeout) →
            ∀ j < k + 1, (e :: rest)[j]? ≠ some DrainEvent.timeout := by
          intro k hk j hj
          cases j with
          | zero => simpa using ht
          | succ j => simpa using hk j (by omega)
        have hshift2 : ∀ k,
            (∀ j < k, rest[j]? = some DrainEvent.poll → 0 < (d.after [e]).pendingAt rest j) →
            ∀ j < k + 1, (e :: rest)[j]? = some DrainEvent.poll →
              0 < d.pendingAt (e :: rest) j := by
          intro k hk j hj hje
          cases j with
          | zero =>
            rw [pendingAt_zero]
            exact h2 (by simpa using hje)
          | succ j =>
            rw [pendingAt_cons_succ]
            exact hk j (by omega) (by simpa using hje)
        rcases ih (d.after [e]) with
          ⟨h, a1, a2⟩ | ⟨k, b1, b2, b3, b4, b5⟩ | ⟨k, c1, c2, c3, c4⟩
        · left
          refine ⟨h, fun j => ?_, fun j hje => ?_⟩
          · exact hshift1 j (fun i _ => a1 i) j (by omega)
          · exact hshift2 j (fun i _ hi => a2 i hi) j (by omega) hje
        · right; left
          exact ⟨k + 1, by simpa using b1, by rw [pendingAt_cons_succ]; exact b2, b3,
            hshift1 k b4, hshift2 k b5⟩
        · right; right
          exact ⟨k + 1, by simpa using c1, by rw [pendingAt_cons_succ]; exact c2,
            hshift1 k c3, hshift2 k c4⟩
theorem Drain_nil_iff (d : DrainableStan) (sched : List DrainEvent) :
    d.Drain sched = some none ↔
      ∃ k, sched[k]? = some DrainEvent.poll ∧ d.pendingAt sched k = 0 ∧
        ∀ j < k, sched[j]? ≠ some DrainEvent.timeout := by
  constructor
  · intro h
    rcases Drain_spec d sched with ⟨h0, -, -⟩ | ⟨k, b1, b2, -, b4, -⟩ | ⟨k, -, c2, -, -⟩
    · rw [h0] at h; cases h
    · exact ⟨k, b1, b2, b4⟩
    · rw [c2] at h; cases h
  · rintro ⟨k, k1, k2, k3⟩
    rcases Drain_spec d sched with ⟨-, -, a2⟩ | ⟨_, -, -, b3, -, -⟩ | ⟨t, c1, -, c3, c4⟩
    · have := a2 k k1
      omega
    · exact b3
    · exfalso
      rcases Nat.lt_trichotomy k t with hlt | heq | hgt
      · have := c4 k hlt k1
        omega
      · subst heq
        rw [k1] at c1
        cases c1
      · exact k3 t hgt c1

theorem Drain_error_iff (d : DrainableStan) (sched : List DrainEvent) :
    (∃ e, d.Drain sched = some (some e)) ↔
      ∃ t, sched[t]? = some DrainEvent.timeout ∧
        ∀ j < t, sched[j]? = some DrainEvent.poll → 0 < d.pendingAt sched j := by
  constructor
  · rintro ⟨e, h⟩
    rcases Drain_spec d sched with ⟨h0, -, -⟩ | ⟨k, -, -, b3, -, -⟩ | ⟨k, c1, -, -, c4⟩
    · rw [h0] at h; cases h
    · rw [b3] at h; cases h
    · exact ⟨k, c1, c4⟩
  · rintro ⟨t, t1, t2⟩
    rcases Drain_spec d sched with ⟨-, a1, -⟩ | ⟨k, b1, b2, -, b4, -⟩ | ⟨_, -, c2, -, -⟩
    · exact absurd t1 (a1 t)
    · exfalso
      rcases Nat.lt_trichotomy k t with hlt | heq | hgt
      · have := t2 k hlt b1
        omega
      · subst heq
        rw [b1] at t1
        cases t1
      · exact b4 t hgt t1
    · exact ⟨_, c2⟩

theorem Drain_error_text (d : DrainableStan) (sched : List DrainEvent) (e : String)
    (h : d.Drain sched = some (some e)) :
    ∃ k, sched[k]? = some DrainEvent.timeout ∧
      (∀ j < k, sched[j]? ≠ some DrainEvent.timeout) ∧
      e = drainTimeoutText (d.pendingAt sched k) := by
  rcases Drain_spec d sched with ⟨h0, -, -⟩ | ⟨k, -, -, b3, -, -⟩ | ⟨k, c1, c2, c3, -⟩
  · rw [h0] at h; cases h
  · rw [b3] at h; cases h
  · rw [c2] at h
    simp only [Option.some.injEq] at h
    exact ⟨k, c1, c3, h.symm⟩

/-- C2. `Drain` returns nil only at a tick of the ticker at which the pending set is
empty and before which the timer was not taken; and whenever the schedule has the
timer at some position and the pending set is non-empty at every tick before it,
`Drain` does not return nil but the timeout error. -/
theorem drain_nil_only_after_empty_poll (d : DrainableStan) (sched : List DrainEvent) :
    (d.Drain sched = some none →
        ∃ k, sched[k]? = some DrainEvent.poll ∧ d.pendingAt sched k = 0 ∧
          ∀ j < k, sched[j]? ≠ some DrainEvent.timeout) ∧
      (∀ t : Nat, sched[t]? = some DrainEvent.timeout →
        (∀ j < t, sched[j]? = some DrainEvent.poll → 0 < d.pendingAt sched j) →
        d.Drain sched ≠ some none ∧
          ∃ n, d.Drain sched = some (some (drainTimeoutText n))) := by
  refine ⟨(Drain_nil_iff d sched).1, fun t t1 t2 => ?_⟩
  obtain ⟨e, he⟩ := (Drain_error_iff d sched).2 ⟨t, t1, t2⟩
  obtain ⟨k, -, -, hk⟩ := Drain_error_text d sched e he
  refine ⟨by rw [he]; simp, d.pendingAt sched k, by rw [he, hk]⟩

/-- Witness for C2: scenario C, `a` and `b` tracked, only `a` untracked, two ticks of
the ticker before the timer. -/
theorem drain_nil_only_after_empty_poll_witness :
    scheduleScenarioC[5]? = some DrainEvent.timeout ∧
      (∀ j < 5, scheduleScenarioC[j]? = some DrainEvent.poll →
        0 < DrainableStan.zero.pendingAt scheduleScenarioC j) ∧
      DrainableStan.zero.Drain scheduleScenarioC ≠ some none ∧
      ∃ n, DrainableStan.zero.Drain scheduleScenarioC = some (some (drainTimeoutText n)) :=
  have h := (drain_nil_only_after_empty_poll DrainableStan.zero scheduleScenarioC).2 5
    (by decide) (by decide)
  ⟨by decide, by decide, h.1, h.2⟩

/-- C8. Whenever `Drain` returns an error, the error is the timeout error and its
text carries the size of the pending set at the moment the timer is taken. -/
theorem drain_timeout_reports_pending (d : DrainableStan) (sched : List DrainEvent)
    (e : String) (h : d.Drain sched = some (some e)) :
    ∃ k, sched[k]? = some DrainEvent.timeout ∧
      (∀ j < k, sched[j]? ≠ some DrainEvent.timeout) ∧
      e = "timed out waiting for " ++ toString (d.pendingAt sched k) ++ " acks" :=
  Drain_error_text d sched e h

/-- Witness for C8: in scenario C the error reads "timed out waiting for 1 acks". -/
theorem drain_timeout_reports_pending_witness :
    DrainableStan.zero.Drain scheduleScenarioC = some (some "timed out waiting for 1 acks") ∧
      DrainableStan.zero.pendingAt scheduleScenarioC 5 = 1 ∧
      ∃ k, scheduleScenarioC[k]? = some DrainEvent.timeout ∧
        (∀ j < k, scheduleScenarioC[j]? ≠ some DrainEvent.timeout) ∧
        "timed out waiting for 1 acks"
          = "timed out waiting for " ++
              toString (DrainableStan.zero.pendingAt scheduleScenarioC k) ++ " acks" :=
  ⟨by decide, by decide,
    drain_timeout_reports_pending DrainableStan.zero scheduleScenarioC
      "timed out waiting for 1 acks" (by decide)⟩

/-- C7 (the code at the failing input). On a tracker with nothing pending,
`Drain(1 * time.Millisecond)` does not return nil: the pending set is looked at for
the first time at the first tick of the 5 ms ticker, the timer is taken before it, and
`Drain` returns the error "timed out waiting for 0 acks". -/
theorem drain_times_out_on_empty_set :
    mapLen DrainableStan.zero.bucket = 0 ∧
      DrainableStan.zero.pendingAt scheduleShortTimeout 0 = 0 ∧
      DrainableStan.zero.Drain scheduleShortTimeout
        = some (some "timed out waiting for 0 acks") ∧
      DrainableStan.zero.Drain scheduleShortTimeout ≠ some none := by
  refine ⟨by decide, by decide, by decide, by decide⟩

/-! ## The uninterrupted tick and the schedule agree -/

theorem drainLoop_of_len_zero (fuel : Nat) (b : MessageSequenceBuffer)
    (h : mapLen b.buffer = 0) : MessageSequenceBuffer.drainLoop fuel b = ([], b) := by
  cases fuel with
  | zero => rfl
  | succ n => rw [MessageSequenceBuffer.drainLoop, if_neg (by omega)]

theorem run_drainIter_idle (s : ConsumeState) (n : Nat) (h : s.draining = false) :
    run s (List.replicate n Event.drainIter) = s := by
  induction n with
  | zero => rfl
  | succ n ih =>
    rw [List.replicate_succ]
    show run (step s Event.drainIter) (List.replicate n Event.drainIter) = s
    have : step s Event.drainIter = s := by simp [step, h]
    rw [this, ih]

/-- Iterations of the drainer loop taken one after the other from the schedule do
what `drainLoop` does. -/
theorem run_drainIter_eq_drainLoop (fuel : Nat) (s : ConsumeState)
    (hd : s.draining = true) (hlen : mapLen s.b.buffer ≤ fuel) :
    (run s (List.replicate (fuel + 1) Event.drainIter)).b
        = (MessageSequenceBuffer.drainLoop fuel s.b).2 ∧
      (run s (List.replicate (fuel + 1) Event.drainIter)).channel
        = s.channel ++ (MessageSequenceBuffer.drainLoop fuel s.b).1 ∧
      (run s (List.replicate (fuel + 1) Event.drainIter)).draining = false ∧
      (run s (List.replicate (fuel + 1) Event.drainIter)).initRunning = s.initRunning := by
  induction fuel generalizing s with
  | zero =>
    have h0 : ¬ mapLen s.b.buffer > 0 := by omega
    simp [run, step, hd, h0, MessageSequenceBuffer.drainLoop, ConsumeState.channel]
  | succ n ih =>
    rw [List.replicate_succ]
    show (run (step s Event.drainIter) (List.replicate (n + 1) Event.drainIter)).b = _ ∧
      (run (step s Event.drainIter) (List.replicate (n + 1) Event.drainIter)).channel = _ ∧
      (run (step s Event.drainIter) (List.replicate (n + 1) Event.drainIter)).draining = _ ∧
      (run (step s Event.drainIter) (List.replicate (n + 1) Event.drainIter)).initRunning = _
    by_cases hl : mapLen s.b.buffer > 0
    · cases hg : mapGet s.b.buffer s.b.current with
      | none =>
        have hs : step s Event.drainIter = { s with draining := false } := by
          simp [step, hd, hl, pop_of_none _ hg]
        rw [hs, run_drainIter_idle _ _ rfl, drainLoop_of_none _ _ hg]
        simp [ConsumeState.channel]
      | some v =>
        have hs : step s Event.drainIter =
            { s with b := { current := (s.b.current + 1) % uint64Size,
                            buffer := mapDelete s.b.buffer s.b.current },
                     sent := s.sent ++ [(s.b.current, v)] } := by
          simp [step, hd, hl, pop_of_get _ v hg]
        have hdel := mapLen_delete_of_get s.b.buffer s.b.current v hg
        rw [hs, drainLoop_succ_of_get n s.b v hg]
        obtain ⟨i1, i2, i3, i4⟩ := ih
          { s with b := { current := (s.b.current + 1) % uint64Size,
                          buffer := mapDelete s.b.buffer s.b.current },
                   sent := s.sent ++ [(s.b.current, v)] } hd
          (by show mapLen (mapDelete s.b.buffer s.b.current) ≤ n; omega)
        refine ⟨i1, ?_, i3, i4⟩
        rw [i2]
        simp [ConsumeState.channel]
    · have hs : step s Event.drainIter = { s with draining := false } := by
        simp [step, hd, hl]
      rw [hs, run_drainIter_idle _ _ rfl]
      rw [drainLoop_of_len_zero _ s.b (by omega)]
      simp [ConsumeState.channel]

/-- A tick of the drainer followed by enough iterations of its loop, taken from the
schedule without anything in between, is `drainerTick`. -/
theorem run_tick_eq_drainerTick (s : ConsumeState) (hd : s.draining = false) :
    (run s (Event.drainTick :: List.replicate (mapLen s.b.buffer + 1) Event.drainIter)).b
        = (s.b.drainerTick).2 ∧
      (run s (Event.drainTick ::
          List.replicate (mapLen s.b.buffer + 1) Event.drainIter)).channel
        = s.channel ++ (s.b.drainerTick).1 ∧
      (run s (Event.drainTick ::
          List.replicate (mapLen s.b.buffer + 1) Event.drainIter)).draining = false := by
  show (run (step s Event.drainTick) _).b = _ ∧ (run (step s Event.drainTick) _).channel = _ ∧
    (run (step s Event.drainTick) _).draining = _
  by_cases hc : s.b.current = 0
  · have hs : step s Event.drainTick = s := by simp [step, hd, hc]
    rw [hs, run_drainIter_idle _ _ hd, drainerTick_of_zero _ hc]
    simp [hd]
  · have hs : step s Event.drainTick = { s with draining := true } := by
      simp [step, hd, hc]
    rw [hs, drainerTick_of_ne_zero _ hc]
    obtain ⟨i1, i2, i3, -⟩ := run_drainIter_eq_drainLoop (mapLen s.b.buffer)
      { s with draining := true } rfl (le_refl _)
    exact ⟨i1, i2, i3⟩

/-- More fuel than entries does not change what the drainer loop does. -/
theorem drainLoop_fuel (b : MessageSequenceBuffer) (fuel : Nat)
    (h : mapLen b.buffer ≤ fuel) :
    MessageSequenceBuffer.drainLoop fuel b
      = MessageSequenceBuffer.drainLoop (mapLen b.buffer) b := by
  induction fuel generalizing b with
  | zero =>
    have : mapLen b.buffer = 0 := by omega
    rw [this]
  | succ n ih =>
    by_cases hl : mapLen b.buffer > 0
    · obtain ⟨k, hk⟩ : ∃ k, mapLen b.buffer = k + 1 := ⟨mapLen b.buffer - 1, by omega⟩
      cases hg : mapGet b.buffer b.current with
      | none => rw [drainLoop_of_none _ _ hg, drainLoop_of_none _ _ hg]
      | some v =>
        have hdel := mapLen_delete_of_get b.buffer b.current v hg
        rw [hk, drainLoop_succ_of_get n b v hg, drainLoop_succ_of_get k b v hg]
        have e1 := ih { current := (b.current + 1) % uint64Size,
                        buffer := mapDelete b.buffer b.current }
          (by show mapLen (mapDelete b.buffer b.current) ≤ n; omega)
        have e2 : mapLen (mapDelete b.buffer b.current) = k := by omega
        rw [e1]
        show _ = (_ :: (MessageSequenceBuffer.drainLoop k _).1,
          (MessageSequenceBuffer.drainLoop k _).2)
        rw [← e2]
    · have h0 : mapLen b.buffer = 0 := by omega
      rw [drainLoop_of_len_zero _ b h0, drainLoop_of_len_zero _ b h0]

/-! ## `pop` -/

/-- C12 (amended). When a message is stored at the cursor, `pop` returns it with a nil
error, deletes exactly the entry at the (old) cursor and advances the cursor by one
modulo `2 ^ 64`, that is by exactly one unless the cursor was `2 ^ 64 - 1`; when no
entry is stored at the cursor, `pop` returns an error and the buffer and the cursor
are as before. -/
theorem pop_removes_and_advances (b : MessageSequenceBuffer) :
    (∀ v, mapGet b.buffer b.current = some v →
        b.pop.1 = (v, none) ∧
        b.pop.2.buffer = mapDelete b.buffer b.current ∧
        mapGet b.pop.2.buffer b.current = none ∧
        (∀ k, k ≠ b.current → mapGet b.pop.2.buffer k = mapGet b.buffer k) ∧
        mapLen b.pop.2.buffer + 1 = mapLen b.buffer ∧
        b.pop.2.current = (b.current + 1) % uint64Size ∧
        (b.current + 1 < uint64Size → b.pop.2.current = b.current + 1)) ∧
      (mapGet b.buffer b.current = none →
        b.pop.1 = (Message.zero, some "sequence item does not exist") ∧ b.pop.2 = b) := by
  refine ⟨fun v hv => ?_, fun hn => ?_⟩
  · rw [pop_of_get b v hv]
    refine ⟨rfl, rfl, mapGet_delete_self _ _, fun k hk => mapGet_delete_ne _ hk,
      mapLen_delete_of_get _ _ v hv, rfl, fun h => Nat.mod_eq_of_lt h⟩
  · rw [pop_of_none b hn]
    exact ⟨rfl, rfl⟩

/-- Witness for C12: with keys 1, 2 and 4 and cursor 1, `pop` returns "1" and leaves
the keys 2 and 4 with cursor 2; a second and a third `pop` return "2" and an error. -/
theorem pop_removes_and_advances_witness :
    MessageSequenceBuffer.scenarioGap.pop.1 = (Message.lit 1 "1", none) ∧
      mapKeys MessageSequenceBuffer.scenarioGap.pop.2.buffer = [4, 2] ∧
      MessageSequenceBuffer.scenarioGap.pop.2.current = 2 ∧
      MessageSequenceBuffer.scenarioGap.pop.2.pop.2.pop.1
        = (Message.zero, some "sequence item does not exist") ∧
      MessageSequenceBuffer.scenarioGap.pop.2.pop.2.pop.2
        = MessageSequenceBuffer.scenarioGap.pop.2.pop.2 :=
  have h := (pop_removes_and_advances MessageSequenceBuffer.scenarioGap).1
    (Message.lit 1 "1") (by decide)
  have h3 := (pop_removes_and_advances MessageSequenceBuffer.scenarioGap.pop.2.pop.2).2
    (by decide)
  ⟨h.1, by decide, h.2.2.2.2.2.2 (by decide), h3.1, h3.2⟩

/-- Counterexample to C12 as stated: with the cursor at `2 ^ 64 - 1` and a message
stored there, `pop` returns the message and the cursor becomes 0, which is not the
cursor advanced by one. -/
theorem pop_wraps_at_last :
    MessageSequenceBuffer.scenarioLast.current = 18446744073709551615 ∧
      MessageSequenceBuffer.scenarioLast.pop.1 = (Message.lit 1 "last", none) ∧
      MessageSequenceBuffer.scenarioLast.pop.2.current = 0 ∧
      MessageSequenceBuffer.scenarioLast.pop.2.current
        ≠ MessageSequenceBuffer.scenarioLast.current + 1 := by
  refine ⟨by decide, by decide, by decide, by decide⟩

/-! ## The cursor over time -/

/-- While the initializer of `Consume` is running the cursor is unset and the drainer
is not inside its loop. -/
theorem step_initRunning (s : ConsumeState) (e : Event)
    (h : s.initRunning = true → s.b.current = 0 ∧ s.draining = false) :
    (step s e).initRunning = true → (step s e).b.current = 0 ∧ (step s e).draining = false := by
  cases e with
  | add i val =>
    intro hr
    obtain ⟨h1, h2⟩ := h hr
    exact ⟨by show (s.b.Add i val).2.current = 0; rw [Add_current]; exact h1, h2⟩
  | initTick order =>
    by_cases hr : s.initRunning = true
    · obtain ⟨-, h2⟩ := h hr
      simp only [step, hr, if_true]
      intro hr2
      exact ⟨of_decide_eq_true hr2, h2⟩
    · simp only [step, hr]
      intro hr2
      exact absurd hr2 hr
  | drainTick =>
    intro hr
    have hr0 : s.initRunning = true := by
      by_cases hd : s.draining = true
      · simpa [step, hd] using hr
      · by_cases hc : s.b.current = 0 <;> simpa [step, hd, hc] using hr
    obtain ⟨h1, h2⟩ := h hr0
    simp [step, h1, h2]
  | drainIter =>
    intro hr
    have hr0 : s.initRunning = true := by
      by_cases hd : s.draining = true
      · by_cases hl : mapLen s.b.buffer > 0
        · cases hg : mapGet s.b.buffer s.b.current with
          | none => simpa [step, hd, hl, pop_of_none _ hg] using hr
          | some v => simpa [step, hd, hl, pop_of_get _ v hg] using hr
        · simpa [step, hd, hl] using hr
      · simpa [step, hd] using hr
    obtain ⟨h1, h2⟩ := h hr0
    simp [step, h1, h2]

theorem run_initRunning (s : ConsumeState) (evs : List Event)
    (h : s.initRunning = true → s.b.current = 0 ∧ s.draining = false) :
    (run s evs).initRunning = true →
      (run s evs).b.current = 0 ∧ (run s evs).draining = false := by
  induction evs generalizing s with
  | nil => exact h
  | cons e rest ih => exact ih (step s e) (step_initRunning s e h)

/-- A step does not lower the cursor, provided the initializer runs only while the
cursor is unset and the cursor is below `2 ^ 64 - 1`. -/
theorem step_current_le (s : ConsumeState) (e : Event)
    (h : s.initRunning = true → s.b.current = 0 ∧ s.draining = false)
    (hmax : s.b.current + 1 < uint64Size) :
    s.b.current ≤ (step s e).b.current := by
  cases e with
  | add i val =>
    show s.b.current ≤ (s.b.Add i val).2.current
    rw [Add_current]
  | initTick order =>
    by_cases hr : s.initRunning = true
    · obtain ⟨h1, -⟩ := h hr
      rw [h1]
      exact Nat.zero_le _
    · simp [step, hr]
  | drainTick =>
    by_cases hd : s.draining = true
    · simp [step, hd]
    · by_cases hc : s.b.current = 0 <;> simp [step, hd, hc]
  | drainIter =>
    by_cases hd : s.draining = true
    · by_cases hl : mapLen s.b.buffer > 0
      · cases hg : mapGet s.b.buffer s.b.current with
        | none => simp [step, hd, hl, pop_of_none _ hg]
        | some v =>
          simp only [step, hd, hl, pop_of_get _ v hg, if_true]
          rw [Nat.mod_eq_of_lt hmax]
          omega
      · simp [step, hd, hl]
    · simp [step, hd]

/-- C11 (amended). In every state that `Consume` and calls of `Add` reach from the empty
buffer, and for every operation taken there (an `Add`, the `init` of the initializer,
the `pop` of the drainer, or a tick), the cursor after the operation is at least the
cursor before it, as long as the cursor before it is below `2 ^ 64 - 1`. -/
theorem cursor_never_decreases (evs : List Event) (e : Event)
    (hmax : (run (ConsumeState.start MessageSequenceBuffer.zero) evs).b.current + 1
      < uint64Size) :
    (run (ConsumeState.start MessageSequenceBuffer.zero) evs).b.current
      ≤ (step (run (ConsumeState.start MessageSequenceBuffer.zero) evs) e).b.current :=
  step_current_le _ e
    (run_initRunning (ConsumeState.start MessageSequenceBuffer.zero) evs
      (fun _ => ⟨rfl, rfl⟩)) hmax

/-- Witness for C11: after the messages 1, 2 and 4 have been added and the initializer
and the drainer have ticked, the `pop` of the drainer moves the cursor from 1 to 2. -/
theorem cursor_never_decreases_witness :
    (run (ConsumeState.start MessageSequenceBuffer.zero)
          scheduleGapStart).b.current + 1
        < uint64Size ∧
      (run (ConsumeState.start MessageSequenceBuffer.zero)
          scheduleGapStart).b.current = 1 ∧
      (step (run (ConsumeState.start MessageSequenceBuffer.zero)
          scheduleGapStart)
          Event.drainIter).b.current = 2 ∧
      (run (ConsumeState.start MessageSequenceBuffer.zero)
          scheduleGapStart).b.current
        ≤ (step (run (ConsumeState.start MessageSequenceBuffer.zero)
          scheduleGapStart)
          Event.drainIter).b.current :=
  ⟨by decide, by decide, by decide,
    cursor_never_decreases scheduleGapStart Event.drainIter (by decide)⟩

/-- Counterexample to C11 as stated: a message is added under `2 ^ 64 - 1`, the
initializer establishes the cursor there, the drainer ticks, and its `pop` takes the
cursor from `2 ^ 64 - 1` to 0. -/
theorem cursor_resets_at_last :
    (run (ConsumeState.start MessageSequenceBuffer.zero) scheduleLast).b.current
        = 18446744073709551615 ∧
      (step (run (ConsumeState.start MessageSequenceBuffer.zero) scheduleLast)
          Event.drainIter).b.current = 0 ∧
      ¬ (run (ConsumeState.start MessageSequenceBuffer.zero) scheduleLast).b.current
        ≤ (step (run (ConsumeState.start MessageSequenceBuffer.zero) scheduleLast)
          Event.drainIter).b.current := by
  refine ⟨by decide, by decide, by decide⟩

/-! ## No stale entry -/

theorem mem_mapKeys_Add (b : MessageSequenceBuffer) (i : Nat) (val : Message) (k : Nat)
    (h : k ∈ mapKeys (b.Add i val).2.buffer) :
    k ∈ mapKeys b.buffer ∨ (k = i ∧ b.current ≤ i) := by
  by_cases hlt : i < b.current
  · rw [Add_of_lt b i val hlt] at h
    exact Or.inl h
  · have hle : b.current ≤ i := by omega
    by_cases hk : k = i
    · exact Or.inr ⟨hk, hle⟩
    · left
      rw [← mapGet_isSome_iff] at h ⊢
      rwa [mapGet_Add_ne b i val hle hk] at h

theorem mem_mapKeys_pop (b : MessageSequenceBuffer) (k : Nat)
    (h : k ∈ mapKeys b.pop.2.buffer) :
    k ∈ mapKeys b.buffer ∧ (b.pop.2.current = b.current ∨
      (k ≠ b.current ∧ b.pop.2.current = (b.current + 1) % uint64Size)) := by
  cases hg : mapGet b.buffer b.current with
  | none =>
    rw [pop_of_none b hg] at h ⊢
    exact ⟨h, Or.inl rfl⟩
  | some v =>
    rw [pop_of_get b v hg] at h ⊢
    rw [← mapGet_isSome_iff] at h
    have hne : k ≠ b.current := by
      intro hk
      rw [hk, mapGet_delete_self] at h
      simp at h
    rw [mapGet_delete_ne _ hne, mapGet_isSome_iff] at h
    exact ⟨h, Or.inr ⟨hne, rfl⟩⟩

/-- The invariant behind C19: every key is at or above the cursor, and none is zero.
It is kept by an `Add` under a non-zero sequence number, by `init` and by `pop`. -/
theorem apply_keeps_keys_above (b : MessageSequenceBuffer) (op : BufferOp)
    (hinv : ∀ k ∈ mapKeys b.buffer, b.current ≤ k ∧ k ≠ 0)
    (hnz : op.addsZero = false)
    (hord : ∀ order, op = BufferOp.init order → order.Perm (mapKeys b.buffer)) :
    ∀ k ∈ mapKeys (b.apply op).buffer, (b.apply op).current ≤ k ∧ k ≠ 0 := by
  cases op with
  | add i val =>
    intro k hk
    have hi : i ≠ 0 := by simpa [BufferOp.addsZero] using hnz
    show (b.Add i val).2.current ≤ k ∧ k ≠ 0
    rw [Add_current]
    rcases mem_mapKeys_Add b i val k hk with h | ⟨rfl, hle⟩
    · exact hinv k h
    · exact ⟨hle, hi⟩
  | init order =>
    show ∀ k ∈ mapKeys (b.init order).buffer, (b.init order).current ≤ k ∧ k ≠ 0
    by_cases hlen : mapLen b.buffer = 0
    · rw [init_of_empty b order hlen]
      exact hinv
    · have h0 : 0 ∉ mapKeys b.buffer := fun hm => (hinv 0 hm).2 rfl
      obtain ⟨hbuf, -, hle⟩ := init_current_least b order (by omega) h0 (hord order rfl)
      intro k hk
      rw [hbuf] at hk
      exact ⟨hle k hk, (hinv k hk).2⟩
  | pop =>
    intro k hk
    show b.pop.2.current ≤ k ∧ k ≠ 0
    obtain ⟨hmem, hcur⟩ := mem_mapKeys_pop b k hk
    obtain ⟨h1, h2⟩ := hinv k hmem
    refine ⟨?_, h2⟩
    rcases hcur with hc | ⟨hne, hc⟩
    · rw [hc]; exact h1
    · rw [hc]
      exact le_trans (Nat.mod_le _ _) (by omega)

theorem applyAll_keeps_keys_above (b : MessageSequenceBuffer) (ops : List BufferOp)
    (hinv : ∀ k ∈ mapKeys b.buffer, b.current ≤ k ∧ k ≠ 0)
    (hnz : ∀ op ∈ ops, op.addsZero = false) (hord : opsOrdered b ops) :
    ∀ k ∈ mapKeys (b.applyAll ops).buffer, (b.applyAll ops).current ≤ k ∧ k ≠ 0 := by
  induction ops generalizing b with
  | nil => exact hinv
  | cons op rest ih =>
    have hnz1 := hnz op (List.mem_cons_self _ _)
    have hnz2 : ∀ o ∈ rest, o.addsZero = false := fun o ho => hnz o (List.mem_cons_of_mem _ ho)
    show ∀ k ∈ mapKeys ((b.apply op).applyAll rest).buffer,
      ((b.apply op).applyAll rest).current ≤ k ∧ k ≠ 0
    cases op with
    | add i val =>
      exact ih _ (apply_keeps_keys_above b _ hinv hnz1 (fun _ h => by cases h)) hnz2 hord
    | init order =>
      obtain ⟨hp, hrest⟩ := hord
      refine ih _ (apply_keeps_keys_above b _ hinv hnz1 (fun o h => ?_)) hnz2 hrest
      cases h
      exact hp
    | pop =>
      exact ih _ (apply_keeps_keys_above b _ hinv hnz1 (fun _ h => by cases h)) hnz2 hord

/-- Where the buffer holds no stale entry: in every state reached from the empty
buffer by a series of `Add`, `init` and `pop` calls in which no message is added under
sequence number 0, every sequence number stored in the buffer is at or above the cursor
(and is not 0). -/
theorem no_stale_entry (ops : List BufferOp) (hnz : ∀ op ∈ ops, op.addsZero = false)
    (hord : opsOrdered MessageSequenceBuffer.zero ops) :
    ∀ k ∈ mapKeys (MessageSequenceBuffer.zero.applyAll ops).buffer,
      (MessageSequenceBuffer.zero.applyAll ops).current ≤ k ∧ k ≠ 0 :=
  applyAll_keeps_keys_above MessageSequenceBuffer.zero ops
    (fun k hk => by simp [MessageSequenceBuffer.zero, mapKeys] at hk) hnz hord

/-- Messages under 3 and 1, `init`, `pop`, a late message under 2 and another `pop`
leave the key 3 with the cursor at 3. -/
theorem no_stale_entry_witness :
    (∀ op ∈ opsInOrder, op.addsZero = false) ∧
      opsOrdered MessageSequenceBuffer.zero opsInOrder ∧
      mapKeys (MessageSequenceBuffer.zero.applyAll opsInOrder).buffer = [3] ∧
      (MessageSequenceBuffer.zero.applyAll opsInOrder).current = 3 ∧
      ∀ k ∈ mapKeys (MessageSequenceBuffer.zero.applyAll opsInOrder).buffer,
        (MessageSequenceBuffer.zero.applyAll opsInOrder).current ≤ k ∧ k ≠ 0 :=
  have hnz : ∀ op ∈ opsInOrder, op.addsZero = false := by
    intro op hop
    simp only [opsInOrder, List.mem_cons, List.mem_singleton, List.not_mem_nil,
      or_false] at hop
    rcases hop with rfl | rfl | rfl | rfl | rfl | rfl <;> rfl
  have hord : opsOrdered MessageSequenceBuffer.zero opsInOrder :=
    ⟨by decide, trivial⟩
  ⟨hnz, hord, by decide, by decide, no_stale_entry opsInOrder hnz hord⟩

/-- C19 (the code at the failing input). After `Add(0, _)`, `Add(5, _)` and an `init`
whose `range` yields the key 0 first, the cursor is 5 and the buffer still holds the
key 0, below the cursor: an entry that `pop`, which only looks at the cursor, does not
reach. -/
theorem stale_entry_under_zero :
    opsOrdered MessageSequenceBuffer.zero opsZeroKey ∧
      (MessageSequenceBuffer.zero.applyAll opsZeroKey).current = 5 ∧
      0 ∈ mapKeys (MessageSequenceBuffer.zero.applyAll opsZeroKey).buffer ∧
      ¬ (MessageSequenceBuffer.zero.applyAll opsZeroKey).current ≤ 0 :=
  ⟨⟨by decide, trivial⟩, by decide, by decide, by decide⟩

/-! ## `add` and `remove` -/

theorem mem_mapKeys_add (d : DrainableStan) (id j : String) :
    j ∈ mapKeys (d.add id).bucket ↔ j = id ∨ j ∈ mapKeys d.bucket := by
  cases hb : d.bucket with
  | none => simp [DrainableStan.add, hb, mapKeys]
  | some a =>
    simp only [DrainableStan.add, hb, mapKeys]
    rw [← AList.mem_keys, AList.mem_insert, AList.mem_keys]

theorem mapLen_add (d : DrainableStan) (id : String) :
    mapLen (d.add id).bucket
      = if id ∈ mapKeys d.bucket then mapLen d.bucket else mapLen d.bucket + 1 := by
  cases hb : d.bucket with
  | none => simp [DrainableStan.add, hb, mapKeys, mapLen]
  | some a =>
    have h := mapLen_insert a id ()
    simp only [DrainableStan.add, hb]
    rw [h]
    by_cases hm : id ∈ mapKeys (some a)
    · rw [if_pos hm, if_pos ((mapGet_isSome_iff (some a) id).2 hm)]
    · rw [if_neg hm, if_neg (fun hc => hm ((mapGet_isSome_iff (some a) id).1 hc))]

theorem mem_mapKeys_remove (d : DrainableStan) (id j : String) :
    j ∈ mapKeys (d.remove id).bucket ↔ j ≠ id ∧ j ∈ mapKeys d.bucket := by
  cases hb : d.bucket with
  | none => simp [DrainableStan.remove, hb, mapKeys, mapDelete]
  | some a =>
    simp only [DrainableStan.remove, hb, mapKeys, mapDelete]
    rw [← AList.mem_keys, AList.mem_erase, AList.mem_keys]

/-! ## `PublishAsync` and `AckHandler` -/

/-- C13. `PublishAsync` returns exactly the pair returned by the wrapped connection.
When the error is nil the returned id is pending afterwards, every other id is
pending exactly if it was when the connection returned, the size grows by one
unless the id was pending already (so a fresh tracker ends with exactly one id),
and the rest of the state is as the connection left it; when the error is not nil
the state, the pending set included, is as the connection left it. -/
theorem publishAsync_tracks_on_success {σ : Type} (conn : ConnPublishAsync σ)
    (subject : String) (data : List Nat) (fn : AckHandlerFn σ) (w : World σ) :
    (DrainableStan.PublishAsync conn subject data fn w).1 = (conn subject data fn w).1 ∧
      ((conn subject data fn w).1.2 = none →
        (conn subject data fn w).1.1
          ∈ mapKeys (DrainableStan.PublishAsync conn subject data fn w).2.1.bucket ∧
        (∀ j, j ≠ (conn subject data fn w).1.1 →
          (j ∈ mapKeys (DrainableStan.PublishAsync conn subject data fn w).2.1.bucket ↔
            j ∈ mapKeys (conn subject data fn w).2.1.bucket)) ∧
        mapLen (DrainableStan.PublishAsync conn subject data fn w).2.1.bucket
          = (if (conn subject data fn w).1.1 ∈ mapKeys (conn subject data fn w).2.1.bucket
              then mapLen (conn subject data fn w).2.1.bucket
              else mapLen (conn subject data fn w).2.1.bucket + 1) ∧
        (mapLen (conn subject data fn w).2.1.bucket = 0 →
          mapLen (DrainableStan.PublishAsync conn subject data fn w).2.1.bucket = 1) ∧
        (DrainableStan.PublishAsync conn subject data fn w).2.2
          = (conn subject data fn w).2.2) ∧
      ((conn subject data fn w).1.2 ≠ none →
        (DrainableStan.PublishAsync conn subject data fn w).2 = (conn subject data fn w).2) := by
  by_cases herr : (conn subject data fn w).1.2 = none
  · have hp : DrainableStan.PublishAsync conn subject data fn w
        = ((conn subject data fn w).1,
            ((conn subject data fn w).2.1.add (conn subject data fn w).1.1,
              (conn subject data fn w).2.2)) := by
      simp only [DrainableStan.PublishAsync]
      rw [if_pos herr]
    rw [hp]
    refine ⟨rfl, fun _ => ⟨?_, ?_, mapLen_add _ _, ?_, rfl⟩, fun h => absurd herr h⟩
    · exact (mem_mapKeys_add _ _ _).2 (Or.inl rfl)
    · intro j hj
      rw [mem_mapKeys_add]
      exact ⟨fun h => h.resolve_left hj, Or.inr⟩
    · intro h0
      show mapLen ((conn subject data fn w).2.1.add (conn subject data fn w).1.1).bucket = 1
      rw [mapLen_add, if_neg, h0]
      intro hm
      have := List.length_pos_of_mem hm
      rw [← mapLen_eq_length_keys] at this
      omega
  · have hp : DrainableStan.PublishAsync conn subject data fn w
        = ((conn subject data fn w).1, (conn subject data fn w).2) := by
      simp only [DrainableStan.PublishAsync]
      rw [if_neg herr]
    rw [hp]
    exact ⟨rfl, fun h => absurd h herr, fun _ => rfl⟩

/-- Witness for C13: the test, a fresh tracker and a connection that returns
`("abc", nil)`; and a connection that returns an error. -/
theorem publishAsync_tracks_on_success_witness :
    (DrainableStan.PublishAsync mockPublishAsync "foo" barBytes noopHandler
        (DrainableStan.zero, ())).1 = ("abc", none) ∧
      mapKeys (DrainableStan.PublishAsync mockPublishAsync "foo" barBytes noopHandler
        (DrainableStan.zero, ())).2.1.bucket = ["abc"] ∧
      mapLen (DrainableStan.PublishAsync mockPublishAsync "foo" barBytes noopHandler
        (DrainableStan.zero, ())).2.1.bucket = 1 ∧
      DrainableStan.PublishAsync failingPublishAsync "foo" barBytes noopHandler
        (DrainableStan.zero, ()) = (("", some "stan: connection closed"),
          (DrainableStan.zero, ())) :=
  have h := publishAsync_tracks_on_success mockPublishAsync "foo" barBytes noopHandler
    (DrainableStan.zero, ())
  ⟨h.1, by decide, (h.2.1 rfl).2.2.2.1 rfl, rfl⟩

theorem mapLen_remove_of_mem (d : DrainableStan) (id : String)
    (h : id ∈ mapKeys d.bucket) : mapLen (d.remove id).bucket + 1 = mapLen d.bucket := by
  obtain ⟨v, hv⟩ := Option.isSome_iff_exists.1 ((mapGet_isSome_iff d.bucket id).2 h)
  exact mapLen_delete_of_get d.bucket id v hv

/-- C14. The handler returned by `AckHandler(fn)`, invoked with `(s, e)`, is `fn`
invoked once with the same `(s, e)` in the state in which `s` has already been
removed from the pending set and every other id is pending exactly if it was before.
Hence, when `fn` leaves the tracker alone, `s` is not pending afterwards and the
other ids are in place; and when `PublishAsync` has returned an id with a nil error
and the wrapped handler is invoked with that id, the id is not pending afterwards, and
the pending set is empty if it was empty when the connection returned. -/
theorem ackHandler_removes_then_calls {σ : Type} (fn : AckHandlerFn σ) (s : String)
    (e : GoError) (w : World σ) :
    DrainableStan.AckHandler fn s e w = fn s e (w.1.remove s, w.2) ∧
      s ∉ mapKeys (w.1.remove s).bucket ∧
      (∀ j, j ≠ s → (j ∈ mapKeys (w.1.remove s).bucket ↔ j ∈ mapKeys w.1.bucket)) ∧
      ((fn s e (w.1.remove s, w.2)).1 = w.1.remove s →
        s ∉ mapKeys (DrainableStan.AckHandler fn s e w).1.bucket ∧
        ∀ j, j ≠ s → (j ∈ mapKeys (DrainableStan.AckHandler fn s e w).1.bucket ↔
          j ∈ mapKeys w.1.bucket)) ∧
      (∀ (conn : ConnPublishAsync σ) (subject : String) (data : List Nat),
        (DrainableStan.PublishAsync conn subject data (DrainableStan.AckHandler fn) w).1
            = (s, none) →
        (∀ w1, (fn s e w1).1 = w1.1) →
        s ∉ mapKeys (DrainableStan.AckHandler fn s e
          (DrainableStan.PublishAsync conn subject data
            (DrainableStan.AckHandler fn) w).2).1.bucket ∧
        (mapLen (conn subject data (DrainableStan.AckHandler fn) w).2.1.bucket = 0 →
          mapLen (DrainableStan.AckHandler fn s e
            (DrainableStan.PublishAsync conn subject data
              (DrainableStan.AckHandler fn) w).2).1.bucket = 0)) := by
  have hs : ∀ d : DrainableStan, s ∉ mapKeys (d.remove s).bucket := by
    intro d hm
    exact ((mem_mapKeys_remove d s s).1 hm).1 rfl
  have hj : ∀ (d : DrainableStan) (j : String), j ≠ s →
      (j ∈ mapKeys (d.remove s).bucket ↔ j ∈ mapKeys d.bucket) := by
    intro d j hne
    rw [mem_mapKeys_remove]
    exact ⟨fun h => h.2, fun h => ⟨hne, h⟩⟩
  refine ⟨rfl, hs w.1, hj w.1, fun hfn => ?_, fun conn subject data hret hfn => ?_⟩
  · show s ∉ mapKeys (fn s e (w.1.remove s, w.2)).1.bucket ∧
      ∀ j, j ≠ s → (j ∈ mapKeys (fn s e (w.1.remove s, w.2)).1.bucket ↔
        j ∈ mapKeys w.1.bucket)
    rw [hfn]
    exact ⟨hs w.1, hj w.1⟩
  · have h13 : (conn subject data (DrainableStan.AckHandler fn) w).1 = (s, none) := by
      have : (DrainableStan.PublishAsync conn subject data (DrainableStan.AckHandler fn) w).1
          = (conn subject data (DrainableStan.AckHandler fn) w).1 := by
        simp only [DrainableStan.PublishAsync]
        split <;> rfl
      rw [← this]; exact hret
    have hp : (DrainableStan.PublishAsync conn subject data
        (DrainableStan.AckHandler fn) w).2
        = ((conn subject data (DrainableStan.AckHandler fn) w).2.1.add s,
            (conn subject data (DrainableStan.AckHandler fn) w).2.2) := by
      simp only [DrainableStan.PublishAsync]
      rw [if_pos (by rw [h13]), h13]
    rw [hp]
    show s ∉ mapKeys (fn s e (_, _)).1.bucket ∧ (_ → mapLen (fn s e (_, _)).1.bucket = 0)
    rw [hfn]
    refine ⟨hs _, fun h0 => ?_⟩
    have hmem : s ∈ mapKeys
        ((conn subject data (DrainableStan.AckHandler fn) w).2.1.add s).bucket :=
      (mem_mapKeys_add _ _ _).2 (Or.inl rfl)
    have h1 := mapLen_remove_of_mem _ s hmem
    have h2 := mapLen_add (conn subject data (DrainableStan.AckHandler fn) w).2.1 s
    rw [if_neg] at h2
    · show mapLen (((conn subject data (DrainableStan.AckHandler fn) w).2.1.add s).remove
        s).bucket = 0
      omega
    · intro hm
      have := List.length_pos_of_mem hm
      rw [← mapLen_eq_length_keys] at this
      omega

/-- Witness for C14: the test with a handler that records what it sees. After
`PublishAsync` returned "abc" the wrapped handler is invoked with `("abc", nil)`: the
recorded call shows the arguments and an empty pending set, and there is one call. -/
theorem ackHandler_removes_then_calls_witness :
    (DrainableStan.PublishAsync mockPublishAsync "foo" barBytes
        (DrainableStan.AckHandler recordingHandler) (DrainableStan.zero, [])).1
        = ("abc", none) ∧
      (DrainableStan.AckHandler recordingHandler "abc" none
        (DrainableStan.PublishAsync mockPublishAsync "foo" barBytes
          (DrainableStan.AckHandler recordingHandler) (DrainableStan.zero, [])).2).2
        = [("abc", none, 0)] ∧
      mapLen (DrainableStan.AckHandler recordingHandler "abc" none
        (DrainableStan.PublishAsync mockPublishAsync "foo" barBytes
          (DrainableStan.AckHandler recordingHandler) (DrainableStan.zero, [])).2).1.bucket
        = 0 :=
  have h := (ackHandler_removes_then_calls recordingHandler "abc" none
    (DrainableStan.zero, [])).2.2.2.2 mockPublishAsync "foo" barBytes rfl (fun _ => rfl)
  ⟨rfl, by decide, h.2 rfl⟩

/-! ## The size of the pending set -/

theorem after_cons (d : DrainableStan) (e : DrainEvent) (rest : List DrainEvent) :
    d.after (e :: rest) = (d.after [e]).after rest := by
  cases e <;> rfl

/-- Along a disciplined series of calls the pending set holds exactly the ids that
are tracked and not yet untracked. -/
theorem mapLen_after_disciplined (calls : List DrainEvent) (d : DrainableStan)
    (seen live : List String) (hnd : live.Nodup) (hsub : ∀ x ∈ live, x ∈ seen)
    (hmem : ∀ x, x ∈ live ↔ x ∈ mapKeys d.bucket)
    (h : callsDisciplined seen live calls) :
    mapLen (d.after calls).bucket + calls.countP DrainEvent.isUntrack
      = live.length + calls.countP DrainEvent.isTrack := by
  induction calls generalizing d seen live with
  | nil =>
    have hperm : live.Perm (mapKeys d.bucket) :=
      (List.perm_ext_iff_of_nodup hnd (mapKeys_nodup _)).2 hmem
    simp [DrainableStan.after, mapLen_eq_length_keys, hperm.length_eq]
  | cons e rest ih =>
    cases e with
    | poll =>
      have := ih d seen live hnd hsub hmem h
      simpa [DrainableStan.after, DrainEvent.isTrack, DrainEvent.isUntrack] using this
    | timeout =>
      have := ih d seen live hnd hsub hmem h
      simpa [DrainableStan.after, DrainEvent.isTrack, DrainEvent.isUntrack] using this
    | track id =>
      obtain ⟨hnew, hrest⟩ := h
      have hnot : id ∉ live := fun hm => hnew (hsub id hm)
      have := ih (d.add id) (id :: seen) (id :: live) (List.nodup_cons.2 ⟨hnot, hnd⟩)
        (fun x hx => by
          rcases List.mem_cons.1 hx with rfl | hx
          · exact List.mem_cons_self _ _
          · exact List.mem_cons_of_mem _ (hsub x hx))
        (fun x => by
          rw [mem_mapKeys_add, List.mem_cons, hmem x])
        hrest
      simp only [DrainableStan.after, List.countP_cons, DrainEvent.isTrack,
        DrainEvent.isUntrack, List.length_cons] at this ⊢
      simp only [Bool.false_eq_true, if_false, if_true, Nat.add_zero] at this ⊢
      omega
    | untrack id =>
      obtain ⟨hin, hrest⟩ := h
      have := ih (d.remove id) seen (live.erase id) (hnd.erase id)
        (fun x hx => hsub x (List.mem_of_mem_erase hx))
        (fun x => by
          rw [mem_mapKeys_remove, hnd.mem_erase_iff, hmem x])
        hrest
      have hlen : (live.erase id).length + 1 = live.length := by
        rw [List.length_erase_of_mem hin]
        have := List.length_pos_of_mem hin
        omega
      simp only [DrainableStan.after, List.countP_cons, DrainEvent.isTrack,
        DrainEvent.isUntrack] at this ⊢
      simp only [Bool.false_eq_true, if_false, if_true, Nat.add_zero] at this ⊢
      omega

/-- C15. For every series of `add` and `remove` calls on a fresh tracker in which every
id is tracked at most once and every `remove` targets an id that is tracked and not
yet removed, the final size of the pending set is the number of `add` calls minus the
number of `remove` calls. -/
theorem pending_size_is_net_count (calls : List DrainEvent)
    (h : callsDisciplined [] [] calls) :
    calls.countP DrainEvent.isUntrack ≤ calls.countP DrainEvent.isTrack ∧
      mapLen (DrainableStan.zero.after calls).bucket
        = calls.countP DrainEvent.isTrack - calls.countP DrainEvent.isUntrack := by
  have := mapLen_after_disciplined calls DrainableStan.zero [] [] List.nodup_nil
    (fun x hx => by cases hx)
    (fun x => by simp [DrainableStan.zero, mapKeys]) h
  simp only [List.length_nil, Nat.zero_add] at this
  omega

/-- Witness for C15: three tracked ids, two of them untracked, one pending. -/
theorem pending_size_is_net_count_witness :
    callsDisciplined [] [] callsInterleaved ∧
      callsInterleaved.countP DrainEvent.isTrack = 3 ∧
      callsInterleaved.countP DrainEvent.isUntrack = 2 ∧
      mapKeys (DrainableStan.zero.after callsInterleaved).bucket = ["b"] ∧
      mapLen (DrainableStan.zero.after callsInterleaved).bucket
        = callsInterleaved.countP DrainEvent.isTrack
          - callsInterleaved.countP DrainEvent.isUntrack :=
  have hd : callsDisciplined [] [] callsInterleaved :=
    ⟨by decide, by decide, by decide, by decide, by decide, trivial⟩
  ⟨hd, by decide, by decide, by decide, (pending_size_is_net_count callsInterleaved hd).2⟩

/-! ## `remove` and `add` are idempotent -/

theorem remove_of_not_mem (d : DrainableStan) (id : String)
    (h : id ∉ mapKeys d.bucket) : d.remove id = d := by
  cases d with
  | mk bucket =>
    cases bucket with
    | none => rfl
    | some a =>
      have hk : id ∉ a.entries.keys := h
      have : a.erase id = a := AList.ext (by
        show List.kerase id a.entries = a.entries
        exact List.kerase_of_not_mem_keys hk)
      simp [DrainableStan.remove, mapDelete, this]

/-- C16. For every pending set and every id that is not a member, `remove(id)` leaves
the tracker exactly as it was; this covers the nil bucket of a zero-valued
`DrainableStan`, on which `remove` does nothing. For every id, member or not, calling
`remove(id)` twice gives the same tracker as calling it once. -/
theorem remove_non_member_is_noop (d : DrainableStan) (id : String) :
    (id ∉ mapKeys d.bucket → d.remove id = d) ∧
      (d.remove id).remove id = d.remove id ∧
      DrainableStan.zero.remove id = DrainableStan.zero ∧
      (DrainableStan.zero.remove id).bucket = none := by
  refine ⟨remove_of_not_mem d id, ?_, rfl, rfl⟩
  apply remove_of_not_mem
  intro hm
  exact ((mem_mapKeys_remove d id id).1 hm).1 rfl

/-- Witness for C16: with `a` pending, `remove("b")` changes nothing, and a second
`remove("a")` changes nothing after the first. -/
theorem remove_non_member_is_noop_witness :
    "b" ∉ mapKeys (DrainableStan.zero.add "a").bucket ∧
      (DrainableStan.zero.add "a").remove "b" = DrainableStan.zero.add "a" ∧
      ((DrainableStan.zero.add "a").remove "a").remove "a"
        = (DrainableStan.zero.add "a").remove "a" ∧
      mapLen (((DrainableStan.zero.add "a").remove "a").remove "a").bucket = 0 :=
  have h := remove_non_member_is_noop (DrainableStan.zero.add "a") "b"
  have h2 := remove_non_member_is_noop (DrainableStan.zero.add "a") "a"
  ⟨by decide, h.1 (by decide), h2.2.1, by decide⟩

/-- C17. For every pending set and every id, `add(id)` followed by `add(id)` gives the
same tracker as a single `add(id)`, and the id is pending afterwards; when the id is
pending already, `add(id)` changes neither the membership of any id nor the size. -/
theorem add_is_idempotent (d : DrainableStan) (id : String) :
    (d.add id).add id = d.add id ∧
      id ∈ mapKeys (d.add id).bucket ∧
      (id ∈ mapKeys d.bucket →
        (∀ j, j ∈ mapKeys (d.add id).bucket ↔ j ∈ mapKeys d.bucket) ∧
        mapLen (d.add id).bucket = mapLen d.bucket) := by
  refine ⟨?_, (mem_mapKeys_add d id id).2 (Or.inl rfl), fun hm => ⟨fun j => ?_, ?_⟩⟩
  · cases d with
    | mk bucket =>
      cases bucket with
      | none => simp [DrainableStan.add, AList.insert_insert]
      | some a => simp [DrainableStan.add, AList.insert_insert]
  · rw [mem_mapKeys_add]
    constructor
    · rintro (rfl | h)
      · exact hm
      · exact h
    · exact Or.inr
  · rw [mapLen_add, if_pos hm]

/-- Witness for C17: with `a` and `b` pending, tracking `a` again keeps two ids. -/
theorem add_is_idempotent_witness :
    "a" ∈ mapKeys ((DrainableStan.zero.add "a").add "b").bucket ∧
      (((DrainableStan.zero.add "a").add "b").add "a").add "a"
        = ((DrainableStan.zero.add "a").add "b").add "a" ∧
      mapLen (((DrainableStan.zero.add "a").add "b").add "a").bucket = 2 ∧
      mapLen (((DrainableStan.zero.add "a").add "b").add "a").bucket
        = mapLen ((DrainableStan.zero.add "a").add "b").bucket :=
  have h := add_is_idempotent ((DrainableStan.zero.add "a").add "b") "a"
  ⟨by decide, h.1, by decide, (h.2.2 (by decide)).2⟩

/-! ## The publish delay -/

/-- Whenever an image file is named and the delay is left at zero, `SetOptions`
succeeds and the delay it stores is zero. -/
theorem SetOptions_delay_of_unset (p : Producer) (env : String → String)
    (opts : ProducerOptions) (hdelay : opts.PublishDelay = 0)
    (hfile : opts.LocalFile ≠ "" ∨ opts.RemoteFile ≠ "") :
    (p.SetOptions env opts).1 = none ∧
      (p.SetOptions env opts).2.GetOptions.PublishDelay = 0 := by
  have hf : ¬ (opts.LocalFile = "" ∧ opts.RemoteFile = "") := by
    rintro ⟨h1, h2⟩
    rcases hfile with h | h
    · exact h h1
    · exact h h2
  have hL : (if opts.LocalFile = "" then "" else opts.LocalFile) = opts.LocalFile := by
    split_ifs with h
    · exact h.symm
    · rfl
  have hR : (if opts.RemoteFile = "" then "" else opts.RemoteFile) = opts.RemoteFile := by
    split_ifs with h
    · exact h.symm
    · rfl
  cases h1 : (opts.ImageSizeRatio == 0) <;>
    cases h2 : (opts.ImageSizeRatio != DefaultImageSizeRatio) <;>
    cases h3 : (DefaultImageSizeRatio != DefaultImageSizeRatio) <;>
    simp [Producer.SetOptions, mergeWithOverride, ProducerOptions.zero, hdelay, hf, h1, h2, h3,
      hL, hR, Producer.GetOptions]

/-- C18 (the code at the failing input). With the options of `producer -file image.png`
and the delay unset, `SetOptions` succeeds and `GetOptions` returns a publish delay of
0, not the 3 ms that the help text of `-delay` announces; the constant
`DefaultPublishDelay`, which the unset delay never takes, is 5 ms. -/
theorem setOptions_unset_delay_is_zero :
    optionsFileOnly.PublishDelay = 0 ∧ optionsFileOnly.LocalFile = "image.png" ∧
      (Producer.zero.SetOptions emptyEnv optionsFileOnly).1 = none ∧
      (Producer.zero.SetOptions emptyEnv optionsFileOnly).2.GetOptions.PublishDelay = 0 ∧
      (Producer.zero.SetOptions emptyEnv optionsFileOnly).2.GetOptions.PublishDelay
        ≠ documentedPublishDelay ∧
      documentedPublishDelay = 3000000 ∧ DefaultPublishDelay = 5000000 := by
  have h := SetOptions_delay_of_unset Producer.zero emptyEnv optionsFileOnly rfl
    (Or.inl (by decide))
  refine ⟨rfl, rfl, h.1, h.2, ?_, by decide, by decide⟩
  rw [h.2]
  decide

/-! ## `batchCharacters` -/

theorem wrapInt_of_int (x : Int) (h1 : -9223372036854775808 ≤ x)
    (h2 : x < 9223372036854775808) : wrapInt x = x := by
  unfold wrapInt
  omega

theorem wrapInt_sub_one (x : Int) : wrapInt (wrapInt x - 1) = wrapInt (x - 1) := by
  unfold wrapInt
  omega

theorem join_map_join (ls : List (List String)) :
    String.join (ls.map String.join) = String.join ls.flatten := by
  apply String.ext
  induction ls with
  | nil => rfl
  | cons c rest ih =>
    simp only [List.map_cons, String.data_join, List.flatten_cons, List.map_append,
      List.flatten_append] at ih ⊢
    rw [ih]

theorem flatten_pieces (cs : List String) (n k : Nat) :
    ((List.range k).map (fun j => (cs.drop (j * n)).take n)).flatten = cs.take (k * n) := by
  induction k with
  | zero => simp
  | succ k ih =>
    rw [List.range_succ, List.map_append, List.flatten_append, ih, Nat.succ_mul,
      List.take_add]
    simp

/-- The number of chunks and the bounds it satisfies. -/
theorem chunk_count_bounds (len n : Nat) (hn : 1 ≤ n) :
    len ≤ (len + n - 1) / n * n ∧
      ∀ k, k < (len + n - 1) / n → k * n + n ≤ len + n - 1 ∧ k * n < len := by
  have h1 := Nat.div_mul_le_self (len + n - 1) n
  have h2 := Nat.lt_div_mul_add (a := len + n - 1) (b := n) (by omega)
  refine ⟨by omega, fun k hk => ?_⟩
  have h3 : (k + 1) * n ≤ (len + n - 1) / n * n := Nat.mul_le_mul_right n hk
  rw [Nat.succ_mul] at h3
  omega

/-- The arithmetic of one iteration: at the start `i` of a chunk, with `i + n` within
the range of `int`. -/
theorem piece_bounds (len i n : Nat) (h1 : i + n ≤ len + n - 1) (h2 : i < len)
    (hbound : len + n - 1 < 9223372036854775808) :
    (i : Int) < (len : Int) ∧
      (-9223372036854775808 : Int) ≤ (i : Int) + (n : Int) ∧
      (i : Int) + (n : Int) < 9223372036854775808 ∧
      (i : Int) + (n : Int) = ((i + n : Nat) : Int) ∧
      (i : Int) ≤ (len : Int) ∧ (i : Int) ≤ ((i + n : Nat) : Int) ∧
      ((len : Int) - (i : Int)).toNat = len - i ∧
      (((i + n : Nat) : Int) - (i : Int)).toNat = n ∧
      ((((i + n : Nat) : Int) > (len : Int)) → len - i ≤ n) := by
  refine ⟨?_, ?_, ?_, ?_, ?_, ?_, ?_, ?_, ?_⟩ <;> omega

/-- The loop, entered at the start of chunk `k` with the chunks before it collected,
ends with all chunks. -/
theorem batchLoop_chunks (cs : List String) (n : Nat) (hn : 1 ≤ n)
    (hbound : cs.length + n - 1 < 9223372036854775808) :
    ∀ (d k i fuel : Nat), i = k * n → k + d = (cs.length + n - 1) / n → d < fuel →
      batchLoop cs (n : Int) fuel (i : Int)
          ((List.range k).map (fun j => String.join ((cs.drop (j * n)).take n)))
        = some ((List.range ((cs.length + n - 1) / n)).map
            (fun j => String.join ((cs.drop (j * n)).take n))) := by
  obtain ⟨hK1, hK2⟩ := chunk_count_bounds cs.length n hn
  intro d
  induction d with
  | zero =>
    intro k i fuel hi hk hfuel
    obtain ⟨f, rfl⟩ : ∃ f, fuel = f + 1 := ⟨fuel - 1, by omega⟩
    have hkK : k = (cs.length + n - 1) / n := by omega
    have hge : ¬ ((i : Int) < (cs.length : Int)) := by
      rw [hi, hkK]
      omega
    rw [batchLoop, if_neg hge, hkK]
  | succ d ih =>
    intro k i fuel hi hk hfuel
    obtain ⟨f, rfl⟩ : ∃ f, fuel = f + 1 := ⟨fuel - 1, by omega⟩
    obtain ⟨hb1, hb2⟩ := hK2 k (by omega)
    rw [← hi] at hb1 hb2
    obtain ⟨hlt, hr1, hr2, hsum, hc2, hc3, e1, e2, e3⟩ :=
      piece_bounds cs.length i n hb1 hb2 hbound
    have hnext : i + n = (k + 1) * n := by rw [hi, Nat.succ_mul]
    have hd : k + 1 + d = (cs.length + n - 1) / n := by omega
    have hf : d < f := by omega
    rw [batchLoop, if_pos hlt]
    rw [hsum] at hr1 hr2
    simp only [hsum, wrapInt_of_int _ hr1 hr2]
    by_cases hgt : ((i + n : Nat) : Int) > (cs.length : Int)
    · simp only [if_pos hgt]
      rw [if_pos ⟨Int.ofNat_nonneg i, hc2⟩, Int.toNat_ofNat, e1,
        List.take_of_length_le (l := cs.drop i) (by rw [List.length_drop])]
      have hpiece : cs.drop i = (cs.drop (k * n)).take n := by
        rw [← hi, List.take_of_length_le (by rw [List.length_drop]; exact e3 hgt)]
      rw [hpiece, ← List.map_singleton (f := fun j => String.join ((cs.drop (j * n)).take n)),
        ← List.map_append, ← List.range_succ]
      exact ih (k + 1) (i + n) f hnext hd hf
    · simp only [if_neg hgt]
      rw [if_pos ⟨Int.ofNat_nonneg i, hc3⟩, Int.toNat_ofNat, e2]
      have hpiece : (cs.drop i).take n = (cs.drop (k * n)).take n := by rw [← hi]
      rw [hpiece, ← List.map_singleton (f := fun j => String.join ((cs.drop (j * n)).take n)),
        ← List.map_append, ← List.range_succ]
      exact ih (k + 1) (i + n) f hnext hd hf
/-- The arithmetic of the capacity `(len + n - 1) / n` when it does not overflow. -/
theorem capacity_bounds (len n : Nat) (hn : 1 ≤ n)
    (hbound : len + n - 1 < 9223372036854775808) :
    ¬ ((n : Int) = 0) ∧
      ((len : Int) + (n : Int) - 1 = ((len + n - 1 : Nat) : Int)) ∧
      (-9223372036854775808 : Int) ≤ (len : Int) + (n : Int) - 1 ∧
      (len : Int) + (n : Int) - 1 < 9223372036854775808 ∧
      (-9223372036854775808 : Int) ≤ (((len + n - 1) / n : Nat) : Int) ∧
      (((len + n - 1) / n : Nat) : Int) < 9223372036854775808 ∧
      ¬ ((((len + n - 1) / n : Nat) : Int) < 0) ∧
      (len + n - 1) / n < len + 1 := by
  have hle : (len + n - 1) / n ≤ len + n - 1 := Nat.div_le_self _ _
  have hK : (len + n - 1) / n ≤ len := by
    by_cases h0 : len = 0
    · rw [h0, Nat.zero_add, Nat.div_eq_of_lt (by omega)]
    · have h3 : (len + n - 1) / n = (len - 1) / n + 1 := by
        have : len + n - 1 = (len - 1) + n := by omega
        rw [this, Nat.add_div_right _ (by omega)]
      have h4 := Nat.div_le_self (len - 1) n
      omega
  generalize (len + n - 1) / n = K at hle hK ⊢
  refine ⟨?_, ?_, ?_, ?_, ?_, ?_, ?_, ?_⟩ <;> omega

/-- What `batchCharacters` returns when the capacity computation does not overflow. -/
theorem batchCharacters_eq (cs : List String) (n : Nat) (hn : 1 ≤ n)
    (hbound : cs.length + n - 1 < 9223372036854775808) :
    batchCharacters cs (n : Int)
      = some ((List.range ((cs.length + n - 1) / n)).map
          (fun j => String.join ((cs.drop (j * n)).take n))) := by
  obtain ⟨hne, hnum, hr1, hr2, hq1, hq2, hq3, hfuel⟩ :=
    capacity_bounds cs.length n hn hbound
  have hloop := batchLoop_chunks cs n hn hbound ((cs.length + n - 1) / n) 0 0
    (cs.length + 1) (by simp) (by simp) hfuel
  unfold batchCharacters
  rw [if_neg hne]
  simp only
  rw [wrapInt_sub_one, wrapInt_of_int _ hr1 hr2, hnum, ← Int.ofNat_tdiv,
    wrapInt_of_int _ hq1 hq2, if_neg hq3]
  simpa using hloop
/-- C20 (amended). For every list of strings `cs` and every chunksize `n >= 1` with
`len(cs) + n - 1` at most the largest `int`, `batchCharacters(cs, n)` returns
`ceil(len(cs) / n)` strings, the `j`-th of which is the concatenation of the (at most
`n`) inputs from position `j * n` on; concatenating the result gives the
concatenation of `cs`, and every chunk except possibly the last joins exactly `n`
inputs. -/
theorem batchCharacters_chunks (cs : List String) (n : Nat) (hn : 1 ≤ n)
    (hbound : cs.length + n - 1 < 9223372036854775808) :
    ∃ out, batchCharacters cs (n : Int) = some out ∧
      out.length = (cs.length + n - 1) / n ∧
      (∀ j, j < out.length → out[j]? = some (String.join ((cs.drop (j * n)).take n))) ∧
      String.join out = String.join cs ∧
      (∀ j, j + 1 < out.length → ((cs.drop (j * n)).take n).length = n) ∧
      (∀ j, j < out.length → 1 ≤ ((cs.drop (j * n)).take n).length) := by
  obtain ⟨hK1, hK2⟩ := chunk_count_bounds cs.length n hn
  refine ⟨_, batchCharacters_eq cs n hn hbound, by simp, ?_, ?_, ?_, ?_⟩
  · intro j hj
    simp only [List.length_map, List.length_range] at hj
    simp [List.getElem?_map, List.getElem?_range hj]
  · have : (List.range ((cs.length + n - 1) / n)).map
        (fun j => String.join ((cs.drop (j * n)).take n))
        = ((List.range ((cs.length + n - 1) / n)).map
            (fun j => (cs.drop (j * n)).take n)).map String.join := by
      rw [List.map_map]
      rfl
    rw [this, join_map_join, flatten_pieces, List.take_of_length_le hK1]
  · intro j hj
    simp only [List.length_map, List.length_range] at hj
    obtain ⟨-, h2⟩ := hK2 (j + 1) hj
    rw [Nat.succ_mul] at h2
    rw [List.length_take, List.length_drop]
    omega
  · intro j hj
    simp only [List.length_map, List.length_range] at hj
    obtain ⟨-, h2⟩ := hK2 j hj
    rw [List.length_take, List.length_drop]
    omega

/-- Witness for C20: five characters in chunks of two. -/
theorem batchCharacters_chunks_witness :
    1 ≤ 2 ∧ ["a", "b", "c", "d", "e"].length + 2 - 1 < 9223372036854775808 ∧
      batchCharacters ["a", "b", "c", "d", "e"] ((2 : Nat) : Int) = some ["ab", "cd", "e"] ∧
      ∃ out, batchCharacters ["a", "b", "c", "d", "e"] ((2 : Nat) : Int) = some out ∧
        out.length = (["a", "b", "c", "d", "e"].length + 2 - 1) / 2 ∧
        String.join out = String.join ["a", "b", "c", "d", "e"] :=
  have h := batchCharacters_chunks ["a", "b", "c", "d", "e"] 2 (by decide) (by decide)
  ⟨by decide, by decide, by decide,
    h.imp (fun _ ho => ⟨ho.1, ho.2.1, ho.2.2.2.1⟩)⟩

/-- Counterexample to C20 as stated: with two inputs and the largest `int` as
chunksize, `len(characters) + chunksize - 1` overflows, the capacity handed to `make`
is negative and `batchCharacters` panics instead of returning one chunk. -/
theorem batchCharacters_panics_on_overflow :
    (1 : Int) ≤ maxInt ∧
      wrapInt (Int.tdiv (wrapInt (wrapInt ((["a", "b"].length : Int) + maxInt) - 1)) maxInt)
        = -1 ∧
      batchCharacters ["a", "b"] maxInt = none := by
  refine ⟨by decide, by decide, by decide⟩

end StanDemo
